import Mathlib

/-!
Verification development for the `passwordcheck` repository (Go).

The repository exposes a password-strength checker.  The textual policy
parser `ParsePolicy` is implemented in Go in `passwordcheck.go` and is
embedded here directly from that source.  The core evaluator
`passwdqc_check` is a native function whose implementation is not part of
the repository (only its header `passwdqc.h`, the Go binding `Check`, and
tests are); the evaluator is therefore modelled from the specification's
§4.4 state machine, as indicated by doc comments below.

Strings are modelled as `List Char` (Go strings are byte/rune sequences;
all inputs relevant here are treated as character lists).  Go `int` values
are modelled as `Int` with the `strconv.Atoi` 64-bit range check made
explicit.
-/

set_option autoImplicit false

namespace PWC

abbrev Str := List Char

/-- Literal `"min"` used by the parser's switch. -/
def litMin : Str := "min".toList

/-- Literal `"max"` used by the parser's switch. -/
def litMax : Str := "max".toList

/-- Literal `"passphrase"` used by the parser's switch. -/
def litPassphrase : Str := "passphrase".toList

/-- Literal `"match"` used by the parser's switch. -/
def litMatch : Str := "match".toList

/-- Literal `"similar"` used by the parser's switch. -/
def litSimilar : Str := "similar".toList

/-- Literal `"deny"` accepted by the `similar` item. -/
def litDeny : Str := "deny".toList

/-- Literal `"permit"` accepted by the `similar` item. -/
def litPermit : Str := "permit".toList

/-- Literal `"disabled"` accepted inside the `min` item. -/
def litDisabled : Str := "disabled".toList

/-- Value of `C.INT_MAX`, bound in Go to `Disabled`
(`var Disabled = C.INT_MAX` in passwordcheck.go). -/
def DisabledV : Int := 2147483647

/-- The `Policy` struct of passwordcheck.go.  `Min [5]int` is flattened into
five explicit `Int` fields `min0 .. min4`; the remaining fields mirror
`Max`, `PassphraseWords`, `MatchLength`, `DenySimilar`. -/
structure Policy where
  min0 : Int
  min1 : Int
  min2 : Int
  min3 : Int
  min4 : Int
  max : Int
  passphraseWords : Int
  matchLength : Int
  denySimilar : Bool
deriving DecidableEq, Repr

/-- The `DefaultPolicy` value of passwordcheck.go:
`Min = {Disabled, 24, 11, 8, 7}, Max = 1024, PassphraseWords = 3,
MatchLength = 4, DenySimilar = true`. -/
def DefaultPolicy : Policy :=
  { min0 := DisabledV, min1 := 24, min2 := 11, min3 := 8, min4 := 7
    max := 1024, passphraseWords := 3, matchLength := 4, denySimilar := true }

/-- Read `Min[i]` of a policy (indices ≥ 4 read `min4`; the program only
uses indices 0–4). -/
def minAt (p : Policy) (i : Nat) : Int :=
  if i = 0 then p.min0
  else if i = 1 then p.min1
  else if i = 2 then p.min2
  else if i = 3 then p.min3
  else p.min4

/-- Write `Min[i]` of a policy (indices ≥ 5 leave the policy unchanged). -/
def setMin (p : Policy) (i : Nat) (m : Int) : Policy :=
  if i = 0 then { p with min0 := m }
  else if i = 1 then { p with min1 := m }
  else if i = 2 then { p with min2 := m }
  else if i = 3 then { p with min3 := m }
  else if i = 4 then { p with min4 := m }
  else p

/-! ### String utilities shared by parser and evaluator -/

/-- Decimal digit test on code points, matching `'0' <= c && c <= '9'`. -/
def isDigitCh (c : Char) : Bool := decide (48 ≤ c.toNat ∧ c.toNat ≤ 57)

/-- Go `unicode.IsSpace` (the character set trimmed by
`strings.TrimSpace`): ASCII whitespace, NEL, NBSP and the Unicode
White_Space code points. -/
def isGoSpace (c : Char) : Bool :=
  decide (c.toNat = 32 ∨ c.toNat = 9 ∨ c.toNat = 10 ∨ c.toNat = 11 ∨
    c.toNat = 12 ∨ c.toNat = 13 ∨ c.toNat = 133 ∨ c.toNat = 160 ∨
    c.toNat = 5760 ∨ (8192 ≤ c.toNat ∧ c.toNat ≤ 8202) ∨ c.toNat = 8232 ∨
    c.toNat = 8233 ∨ c.toNat = 8239 ∨ c.toNat = 8287 ∨ c.toNat = 12288)

/-- Model of `strings.TrimSpace`: drop `isGoSpace` characters from both
ends. -/
def trimSpace (s : Str) : Str :=
  ((s.dropWhile isGoSpace).reverse.dropWhile isGoSpace).reverse

/-- Model of `strings.Replace(config, "\r\n", " ", -1)`: leftmost,
non-overlapping replacement of CRLF pairs by one space. -/
def replCRLF : Str → Str
  | [] => []
  | [c] => [c]
  | c1 :: c2 :: r =>
      if c1 = '\r' ∧ c2 = '\n' then ' ' :: replCRLF r
      else c1 :: replCRLF (c2 :: r)

/-- Model of `strings.Replace(config, "\n", " ", -1)` (a single-character
pattern, hence a character map). -/
def replNL (s : Str) : Str := s.map (fun c => if c = '\n' then ' ' else c)

/-- The two `strings.Replace` calls performed by `ParsePolicy` before
splitting. -/
def normalize (s : Str) : Str := replNL (replCRLF s)

/-- Model of `strings.Split` on a one-character separator: `splitCh sep s`
returns the (possibly empty) tokens of `s` between occurrences of `sep`. -/
def splitCh (sep : Char) : Str → List Str
  | [] => [[]]
  | c :: r =>
      if c = sep then [] :: splitCh sep r
      else
        match splitCh sep r with
        | [] => [[c]]
        | t :: ts => (c :: t) :: ts

/-- Model of `strings.SplitN(s, "=", 2)`: split at the first `'='`;
`none` when `s` contains no `'='` (the length-1 result in Go). -/
def splitEq : Str → Option (Str × Str)
  | [] => none
  | c :: r =>
      if c = '=' then some ([], r)
      else (splitEq r).map (fun ab => (c :: ab.1, ab.2))

/-- Numeric value of a digit string (most significant first). -/
def digitsToNat (ds : Str) : Nat := ds.foldl (fun a c => 10 * a + (c.toNat - 48)) 0

/-- Digit-and-range part of `strconv.Atoi`: one or more decimal digits, no
other characters, negated when `neg` is set, with the 64-bit `int` range
check. -/
def atoiCore (neg : Bool) (ds : Str) : Option Int :=
  if ds.isEmpty then none
  else if ds.all isDigitCh then
    let v : Int := if neg then -(digitsToNat ds : Int) else (digitsToNat ds : Int)
    if v < -(2 ^ 63 : Int) ∨ (2 ^ 63 - 1 : Int) < v then none else some v
  else none

/-- Model of `strconv.Atoi`: an optional single leading `'+'` or `'-'`,
then one or more decimal digits, no other characters, with the 64-bit
`int` range check; `none` models a non-nil error. -/
def atoi : Str → Option Int
  | '-' :: r => atoiCore true r
  | '+' :: r => atoiCore false r
  | r => atoiCore false r

/-! ### The parser, embedded from `ParsePolicy` in passwordcheck.go -/

/-- One `min` value: the literal `disabled` or an `Atoi` integer. -/
def parseMinVal (v : Str) : Option Int :=
  if v = litDisabled then some DisabledV else atoi v

/-- The `min` case of `ParsePolicy`'s switch: exactly 5 comma-separated
values, each `disabled` or an integer; on success the update of all five
`Min` entries. -/
def parseMins : List Str → Option (Policy → Policy)
  | [a, b, c, d, e] =>
      (parseMinVal a).bind fun x0 =>
      (parseMinVal b).bind fun x1 =>
      (parseMinVal c).bind fun x2 =>
      (parseMinVal d).bind fun x3 =>
      (parseMinVal e).map fun x4 =>
        fun p => { p with min0 := x0, min1 := x1, min2 := x2, min3 := x3, min4 := x4 }
  | _ => none

/-- The switch of `ParsePolicy` on an item's name and value, giving the
field update the item performs (`none` models the early error return). -/
def itemBody (name value : Str) : Option (Policy → Policy) :=
  if name = litMin then parseMins (splitCh ',' value)
  else if name = litMax then
    (atoi value).map (fun v p => { p with max := v })
  else if name = litPassphrase then
    (atoi value).map (fun v p => { p with passphraseWords := v })
  else if name = litMatch then
    (atoi value).map (fun v p => { p with matchLength := v })
  else if name = litSimilar then
    if value = litDeny then some (fun p => { p with denySimilar := true })
    else if value = litPermit then some (fun p => { p with denySimilar := false })
    else none
  else none

/-- The body of `ParsePolicy`'s loop for a single item: trim it, split at
the first `'='` (an item without `'='` is an error), then dispatch on the
name.  The error/success outcome of an item does not depend on the policy
being built, which in the Go code holds because every `case` either
returns an error or assigns a field. -/
def itemFn (it : Str) : Option (Policy → Policy) :=
  (splitEq (trimSpace it)).bind fun nv => itemBody nv.1 nv.2

/-- State of a `ParsePolicy` call: the global `DefaultPolicy` that the
function reads (and, per claim C10, must not write), and the freshly
allocated policy `p` that the loop mutates. -/
structure PEnv where
  dflt : Policy
  p : Policy
deriving DecidableEq, Repr

/-- One iteration of `ParsePolicy`'s loop: apply the item's field update
to the fresh policy only. -/
def goItem (st : PEnv) (it : Str) : Option PEnv :=
  (itemFn it).map (fun f => { st with p := f st.p })

/-- The loop of `ParsePolicy` over all items, threading the state; on the
first failing item the loop stops with `none` (Go returns `nil, err`),
returning the state reached so far. -/
def goItems : PEnv → List Str → PEnv × Option Policy
  | st, [] => (st, some st.p)
  | st, it :: rest =>
      match goItem st it with
      | none => (st, none)
      | some st' => goItems st' rest

/-- `ParsePolicy` relative to an explicit default-policy global `d`:
allocate a fresh policy, copy `d` into it (`*p = *DefaultPolicy`),
normalize the separators, split on spaces and run the loop. -/
def parsePolicyS (d : Policy) (cfg : Str) : PEnv × Option Policy :=
  goItems ⟨d, d⟩ (splitCh ' ' (normalize cfg))

/-- `ParsePolicy` of passwordcheck.go: `none` models a non-nil error. -/
def parsePolicy (cfg : Str) : Option Policy :=
  (parsePolicyS DefaultPolicy cfg).2

/-! ### The evaluator, modelled from the specification

The native `passwdqc_check` engine is not part of the repository (only
`passwdqc.h` and the Go binding `Check` are), so the evaluator below is
modelled from the specification: §4.1 (classifier), §4.2 (similarity
matcher), §4.3 (pattern detector) and the §4.4 decision state machine. -/

/-- The closed set of rejection reasons (§6 of the spec; the `REASON_*`
constants of passwdqc.h). -/
inductive Reason where
  | empty
  | failed
  | same
  | similar
  | short
  | long
  | simpleshort
  | simple
  | personal
  | word
  | seq
deriving DecidableEq, Repr

/-- Modelled from the spec (§4.2, case-insensitivity): ASCII lower-casing
of one character. -/
def toLowerA (c : Char) : Char :=
  if 65 ≤ c.toNat ∧ c.toNat ≤ 90 then Char.ofNat (c.toNat + 32) else c

/-- Case folding of a string (ASCII). -/
def foldcase (s : Str) : Str := s.map toLowerA

/-- Modelled from the spec (§4.1): the character-class bucket used for the
diversity count — digit, lowercase, uppercase, or other (other-ASCII and
non-ASCII folded into one bucket for the count, as §4.1 prescribes). -/
def bucketOf (c : Char) : Nat :=
  if 48 ≤ c.toNat ∧ c.toNat ≤ 57 then 0
  else if 97 ≤ c.toNat ∧ c.toNat ≤ 122 then 1
  else if 65 ≤ c.toNat ∧ c.toNat ≤ 90 then 2
  else 3

/-- Modelled from the spec (§4.1): number of distinct character classes
present in a string. -/
def classCount (s : Str) : Nat :=
  (List.range 4).countP (fun b => s.any (fun c => bucketOf c == b))

/-- Words of a password: the nonempty space-separated tokens (§3 of the
spec: "word count (space-separated tokens)"). -/
def wordsOf (s : Str) : List Str := (splitCh ' ' s).filter (fun w => !w.isEmpty)

/-- Tells whether `pat` starts `s` (character-for-character prefix). -/
def startsWithL : Str → Str → Bool
  | [], _ => true
  | _ :: _, [] => false
  | p :: ps, c :: cs => (p == c) && startsWithL ps cs

/-- Tells whether `pat` occurs contiguously inside `s`. -/
def hasSub (pat : Str) : Str → Bool
  | [] => startsWithL pat []
  | c :: cs => startsWithL pat (c :: cs) || hasSub pat cs

/-- Modelled from the spec (§4.3): the canonical leet-speak substitutions
applied before the dictionary lookup. -/
def leetCh (c : Char) : Char :=
  if c = '0' then 'o'
  else if c = '1' then 'l'
  else if c = '3' then 'e'
  else if c = '4' then 'a'
  else if c = '5' then 's'
  else if c = '7' then 't'
  else if c = '$' then 's'
  else c

/-- Modelled from the spec (§4.3): dictionary-word test via the injected
lookup, trying the lower-cased raw form and the leet-substituted form. -/
def isDictWord (dict : Str → Bool) (w : Str) : Bool :=
  dict (foldcase w) || dict ((foldcase w).map leetCh)

/-- Ascending run of adjacent code points (`abcde`, `12345`). -/
def ascRun : Str → Bool
  | [] => true
  | [_] => true
  | a :: b :: r => (b.toNat == a.toNat + 1) && ascRun (b :: r)

/-- Descending run of adjacent code points (`54321`). -/
def descRun : Str → Bool
  | [] => true
  | [_] => true
  | a :: b :: r => (a.toNat == b.toNat + 1) && descRun (b :: r)

/-- Run of identical characters. -/
def allSame : Str → Bool
  | [] => true
  | c :: r => r.all (· == c)

/-- Modelled from the spec (§4.3): the fixed list of known keyboard-row
sequences (the spec names `qwerty` and `asdfgh` as examples; the three
standard letter rows are used). -/
def kbRows : List Str := ["qwertyuiop".toList, "asdfghjkl".toList, "zxcvbnm".toList]

/-- Modelled from the spec (§4.3): `IsSequence` — length ≥ 3 and entirely
an ascending/descending adjacent run, a repeated character, or a
case-insensitive substring of a keyboard row. -/
def isSeq (w : Str) : Bool :=
  (3 ≤ w.length : Bool) &&
    (ascRun w || descRun w || allSame w ||
      kbRows.any (fun row => hasSub (foldcase w) row))

/-- Per-word scan of the passphrase path (§4.4 step 5): the first word
that is a dictionary word gives `Word`, the first sequence gives `Seq`. -/
def phraseScan (dict : Str → Bool) : List Str → Option Reason
  | [] => none
  | w :: ws =>
      if isDictWord dict w then some .word
      else if isSeq w then some .seq
      else phraseScan dict ws

/-- Length of the common case-insensitive prefix of two strings. -/
def cplen : Str → Str → Nat
  | a :: x, b :: y => if toLowerA a = toLowerA b then cplen x y + 1 else 0
  | _, _ => 0

/-- Longest case-insensitive common-substring length achievable starting
at position `i` of `a`. -/
def bestAt (a b : Str) (i : Nat) : Nat :=
  ((List.range b.length).map (fun j => cplen (a.drop i) (b.drop j))).foldr Nat.max 0

/-- Modelled from the spec (§4.2): length of the longest case-insensitive
common contiguous substring of `a` and `b`. -/
def lcsLen (a b : Str) : Nat :=
  ((List.range a.length).map (fun i => bestAt a b i)).foldr Nat.max 0

/-- Earliest starting position in `a` achieving the longest match (ties
broken by earliest position in `a`, §4.2). -/
def lcsStart (a b : Str) : Nat :=
  ((List.range a.length).find? (fun i => bestAt a b i == lcsLen a b)).getD 0

/-- The matched substring, taken from `a`. -/
def lcsSub (a b : Str) : Str := (a.drop (lcsStart a b)).take (lcsLen a b)

/-- Tells whether `sub` occurs case-insensitively at position `i` of `s`. -/
def subAt (s sub : Str) (i : Nat) : Bool :=
  startsWithL (foldcase sub) (foldcase (s.drop i))

/-- First case-insensitive occurrence of `sub` in `s`. -/
def findSub (sub s : Str) : Option Nat :=
  (List.range (s.length + 1)).find? (subAt s sub)

/-- Modelled from the spec (§4.2): `Discount` removes the first
case-insensitive occurrence of `sub` from `s`; an empty `sub` leaves `s`
unchanged. -/
def discount (s sub : Str) : Str :=
  if sub.isEmpty then s
  else
    match findSub sub s with
    | some i => s.take i ++ s.drop (i + sub.length)
    | none => s

/-- Modelled from the spec (§4.4 step 4): when `matchLength > 0` and an
old password or username is supplied, find the better of the two longest
common substrings with the new password (the old password preferred on a
tie); when its length reaches `matchLength`, return the discounted new
password. -/
def bestOther (pol : Policy) (np : Str) (old user : Option Str) : Option Str :=
  if pol.matchLength ≤ 0 then none
  else
    match old, user with
    | none, none => none
    | some o, none =>
        if (lcsLen np o : Int) ≥ pol.matchLength then some (discount np (lcsSub np o)) else none
    | none, some u =>
        if (lcsLen np u : Int) ≥ pol.matchLength then some (discount np (lcsSub np u)) else none
    | some o, some u =>
        let c := if lcsLen np u > lcsLen np o then u else o
        if (lcsLen np c : Int) ≥ pol.matchLength then some (discount np (lcsSub np c)) else none

/-- Modelled from the spec (§4.4 step 7): the password equals or is wholly
contained in the username (or vice versa), case-insensitively, with the
contained string at least `matchLength` long ("beyond the generic
similarity threshold"). -/
def isPersonal (pol : Policy) (s u : Str) : Bool :=
  (!s.isEmpty && hasSub (foldcase s) (foldcase u) &&
    decide ((s.length : Int) ≥ pol.matchLength)) ||
  (!u.isEmpty && hasSub (foldcase u) (foldcase s) &&
    decide ((u.length : Int) ≥ pol.matchLength))

/-- Index into `min` selected by the distinct-class count (§4.4 step 6):
`c = 1 → 0`, `c = 2 → 1`, `c = 3 → 3`, `c ≥ 4 → 4` (a count of 0 can only
arise for the empty string and uses the strictest tier `min[0]`). -/
def tierIndex (c : Nat) : Nat :=
  if c ≤ 1 then 0 else if c = 2 then 1 else if c = 3 then 3 else 4

/-- Modelled from the spec (§4.4 steps 6–7): the class-tier check followed
by the personal check.  A `Disabled` tier gives `SimpleShort`; a length
below the tier gives `Short` on the plain path and `SimpleShort` on the
post-discount path (`pd`). -/
def classTier (pol : Policy) (user : Option Str) (s : Str) (pd : Bool) : Option Reason :=
  if minAt pol (tierIndex (classCount s)) = DisabledV then some .simpleshort
  else if (s.length : Int) < minAt pol (tierIndex (classCount s)) then
    some (if pd then .simpleshort else .short)
  else
    match user with
    | some u => if isPersonal pol s u then some .personal else none
    | none => none

/-- Modelled from the spec (§4.4 steps 5–7): evaluate one string.  When
the word count qualifies it as a passphrase: a `Disabled` `min[2]` forces
rejection of all passphrases (the spec does not name the reason;
`SimpleShort` is used, matching the `Disabled`-tier handling of step 6);
with sufficient length the per-word dictionary/sequence scan runs and an
unflagged phrase is accepted, skipping the checks below; a length below
`min[2]` falls back to the class-tier path.  Otherwise the class-tier and
personal checks of steps 6–7 run. -/
def evalCore (pol : Policy) (dict : Str → Bool) (user : Option Str) (s : Str) (pd : Bool) :
    Option Reason :=
  if pol.passphraseWords > 0 ∧ ((wordsOf s).length : Int) ≥ pol.passphraseWords then
    if pol.min2 = DisabledV then some .simpleshort
    else if (s.length : Int) ≥ pol.min2 then phraseScan dict (wordsOf s)
    else classTier pol user s pd
  else classTier pol user s pd

/-- Supplied old password case-insensitively equal to the new one (§4.4
step 2). -/
def sameAsOld (old : Option Str) (np : Str) : Bool :=
  match old with
  | some o => foldcase o == foldcase np
  | none => false

/-- Modelled from the spec (§4.4): the decision state machine of
`Check`/`passwdqc_check`.  `none` is acceptance; `new = none` models a nil
`newPassword` (the Go binding returns `ErrEmpty` for it) and, per §4.4,
an empty `newPassword` also yields `Empty`.  Step 4: when a qualifying
common substring exists, steps 5–7 run first on the discounted string;
a weak discounted string gives `Similar` when `denySimilar` is set,
otherwise evaluation proceeds on the original string (the spec's §9 notes
this completion as its reading of the original behaviour). -/
def check (pol : Policy) (dict : Str → Bool) (new old user : Option Str) : Option Reason :=
  match new with
  | none => some .empty
  | some np =>
      if np.isEmpty then some .empty
      else if sameAsOld old np then some .same
      else if (np.length : Int) > pol.max then some .long
      else
        match bestOther pol np old user with
        | some d =>
            match evalCore pol dict user d true with
            | some _ =>
                if pol.denySimilar then some .similar
                else evalCore pol dict user np false
            | none => evalCore pol dict user np false
        | none => evalCore pol dict user np false

/-! ### The canonical policy formatter

Modelled from the spec: the source has no formatter; the spec's round-trip
property (§8) is stated against "a canonical formatter" producing
`min=N0,N1,N2,N3,N4 max=N passphrase=N match=N similar=permit|deny`, with
`disabled` for `Disabled` entries. -/

/-- Character of a decimal digit value. -/
def natDigitCh (d : Nat) : Char := Char.ofNat (48 + d)

/-- Decimal digit string of a natural number (no leading zeros except for
`0` itself). -/
def natDigits (n : Nat) : Str :=
  if _h : n < 10 then [natDigitCh n]
  else natDigits (n / 10) ++ [natDigitCh (n % 10)]
decreasing_by exact Nat.div_lt_self (by omega) (by omega)

/-- Canonical base-10 rendering of an integer. -/
def renderInt (v : Int) : Str :=
  if v < 0 then '-' :: natDigits v.natAbs else natDigits v.toNat

/-- Rendering of one `min` entry: `disabled` for the sentinel, decimal
otherwise. -/
def renderMinV (v : Int) : Str := if v = DisabledV then litDisabled else renderInt v

/-- Canonical `min=` item. -/
def fmtMin (p : Policy) : Str :=
  litMin ++ '=' :: (renderMinV p.min0 ++ ',' :: (renderMinV p.min1 ++ ',' ::
    (renderMinV p.min2 ++ ',' :: (renderMinV p.min3 ++ ',' :: renderMinV p.min4))))

/-- Canonical `max=` item. -/
def fmtMax (p : Policy) : Str := litMax ++ '=' :: renderInt p.max

/-- Canonical `passphrase=` item. -/
def fmtPassphrase (p : Policy) : Str := litPassphrase ++ '=' :: renderInt p.passphraseWords

/-- Canonical `match=` item. -/
def fmtMatch (p : Policy) : Str := litMatch ++ '=' :: renderInt p.matchLength

/-- Canonical `similar=` item. -/
def fmtSimilar (p : Policy) : Str :=
  litSimilar ++ '=' :: (if p.denySimilar then litDeny else litPermit)

/-- Canonical rendering of a whole policy, items separated by single
spaces. -/
def formatPolicy (p : Policy) : Str :=
  fmtMin p ++ ' ' :: (fmtMax p ++ ' ' :: (fmtPassphrase p ++ ' ' ::
    (fmtMatch p ++ ' ' :: fmtSimilar p)))

/-- Go `int` is 64 bits wide; `strconv.Atoi` errors outside this range. -/
def inI64 (v : Int) : Prop := -(2 ^ 63 : Int) ≤ v ∧ v ≤ (2 ^ 63 - 1 : Int)

instance (v : Int) : Decidable (inI64 v) := by
  unfold inI64
  infer_instance

/-- All integer fields of a policy representable as Go `int`s. -/
def PolicyInRange (p : Policy) : Prop :=
  inI64 p.min0 ∧ inI64 p.min1 ∧ inI64 p.min2 ∧ inI64 p.min3 ∧ inI64 p.min4 ∧
    inI64 p.max ∧ inI64 p.passphraseWords ∧ inI64 p.matchLength

instance (p : Policy) : Decidable (PolicyInRange p) := by
  unfold PolicyInRange
  infer_instance

/-! ### Lemmas about splitting -/

theorem splitCh_nil (sep : Char) : splitCh sep [] = [[]] := rfl

theorem splitCh_cons_sep (sep : Char) (r : Str) :
    splitCh sep (sep :: r) = [] :: splitCh sep r := by
  simp [splitCh]

theorem splitCh_ne_nil (sep : Char) (s : Str) : splitCh sep s ≠ [] := by
  induction s with
  | nil => simp [splitCh]
  | cons c r ih =>
      simp only [splitCh]
      by_cases h : c = sep
      · simp [h]
      · simp only [h, if_false]
        cases hs : splitCh sep r with
        | nil => simp
        | cons t ts => simp

theorem splitCh_dest (sep : Char) (s : Str) :
    ∃ t ts, splitCh sep s = t :: ts := by
  cases hs : splitCh sep s with
  | nil => exact absurd hs (splitCh_ne_nil sep s)
  | cons t ts => exact ⟨t, ts, rfl⟩

theorem splitCh_cons_ne {sep c : Char} (h : c ≠ sep) {r t : Str} {ts : List Str}
    (hr : splitCh sep r = t :: ts) : splitCh sep (c :: r) = (c :: t) :: ts := by
  simp [splitCh, h, hr]

theorem splitCh_append_sep (sep : Char) (a b : Str) :
    splitCh sep (a ++ sep :: b) = splitCh sep a ++ splitCh sep b := by
  induction a with
  | nil => simp [splitCh]
  | cons c a' ih =>
      by_cases h : c = sep
      · subst h
        rw [List.cons_append, splitCh_cons_sep, ih, splitCh_cons_sep,
          List.cons_append]
      · obtain ⟨t, ts, hr⟩ := splitCh_dest sep a'
        have ih' : splitCh sep (a' ++ sep :: b) = t :: (ts ++ splitCh sep b) := by
          rw [ih, hr, List.cons_append]
        rw [List.cons_append, splitCh_cons_ne h ih', splitCh_cons_ne h hr,
          List.cons_append]

theorem splitCh_of_no_sep (sep : Char) (s : Str) (h : sep ∉ s) :
    splitCh sep s = [s] := by
  induction s with
  | nil => rfl
  | cons c r ih =>
      have hc : c ≠ sep := fun hc => h (hc ▸ List.mem_cons_self c r)
      have hr : sep ∉ r := fun hr => h (List.mem_cons_of_mem c hr)
      exact splitCh_cons_ne hc (ih hr)

theorem splitCh_all {P : Char → Bool} (sep : Char) (s : Str) (hs : s.all P)
    {t : Str} (ht : t ∈ splitCh sep s) : t.all P := by
  induction s generalizing t with
  | nil =>
      rw [splitCh_nil, List.mem_singleton] at ht
      subst ht; rfl
  | cons c r ih =>
      simp only [List.all_cons, Bool.and_eq_true] at hs
      by_cases h : c = sep
      · subst h
        rw [splitCh_cons_sep, List.mem_cons] at ht
        rcases ht with rfl | ht
        · rfl
        · exact ih hs.2 ht
      · obtain ⟨t0, ts, hr⟩ := splitCh_dest sep r
        rw [splitCh_cons_ne h hr, List.mem_cons] at ht
        rcases ht with rfl | ht
        · have h0 : t0.all P := ih hs.2 (hr ▸ List.mem_cons_self t0 ts)
          simp [List.all_cons, hs.1, h0]
        · exact ih hs.2 (hr ▸ List.mem_cons_of_mem t0 ht)

theorem splitCh_sep_not_mem (sep : Char) (s : Str) {t : Str}
    (ht : t ∈ splitCh sep s) : sep ∉ t := by
  induction s generalizing t with
  | nil =>
      rw [splitCh_nil, List.mem_singleton] at ht
      subst ht; simp
  | cons c r ih =>
      by_cases h : c = sep
      · subst h
        rw [splitCh_cons_sep, List.mem_cons] at ht
        rcases ht with rfl | ht
        · simp
        · exact ih ht
      · obtain ⟨t0, ts, hr⟩ := splitCh_dest sep r
        rw [splitCh_cons_ne h hr, List.mem_cons] at ht
        rcases ht with rfl | ht
        · intro hmem
          rcases List.mem_cons.mp hmem with rfl | hmem
          · exact h rfl
          · exact ih (hr ▸ List.mem_cons_self t0 ts) hmem
        · exact ih (hr ▸ List.mem_cons_of_mem t0 ht)

/-! ### Lemmas about the item loop -/

theorem itemFn_nil : itemFn [] = none := rfl

theorem goItems_dflt (st : PEnv) (items : List Str) :
    (goItems st items).1.dflt = st.dflt := by
  induction items generalizing st with
  | nil => rfl
  | cons it rest ih =>
      simp only [goItems, goItem]
      cases h : itemFn it with
      | none => rfl
      | some f => exact ih _

theorem goItems_err_of_mem {it : Str} (hbad : itemFn it = none) (st : PEnv)
    (items : List Str) (hmem : it ∈ items) : (goItems st items).2 = none := by
  induction items generalizing st with
  | nil => cases hmem
  | cons x rest ih =>
      rcases List.mem_cons.mp hmem with rfl | hmem
      · simp [goItems, goItem, hbad]
      · simp only [goItems, goItem]
        cases h : itemFn x with
        | none => rfl
        | some f => exact ih _ hmem

theorem nil_item_err (st : PEnv) (items : List Str) (hmem : ([] : Str) ∈ items) :
    (goItems st items).2 = none :=
  goItems_err_of_mem itemFn_nil st items hmem

/-! ### Lemmas about the separator replacements -/

theorem replCRLF_crlf (r : Str) : replCRLF ('\r' :: '\n' :: r) = ' ' :: replCRLF r := by
  simp [replCRLF]

theorem replCRLF_cons_of_ne {c : Char} {s : Str}
    (h : c ≠ '\r' ∨ s.head? ≠ some '\n') : replCRLF (c :: s) = c :: replCRLF s := by
  cases s with
  | nil => rfl
  | cons d r =>
      have hd : ¬(c = '\r' ∧ d = '\n') := by
        rcases h with h | h
        · exact fun hc => h hc.1
        · exact fun hc => h (by simp [hc.2])
      simp [replCRLF, hd]

theorem replCRLF_append (s : Str) :
    ∀ b : Str, ¬(s.getLast? = some '\r' ∧ b.head? = some '\n') →
      replCRLF (s ++ b) = replCRLF s ++ replCRLF b := by
  induction s using replCRLF.induct with
  | case1 => intro b _; rfl
  | case2 c =>
      intro b hb
      have hc : c ≠ '\r' ∨ b.head? ≠ some '\n' := by
        by_cases h : c = '\r'
        · right; exact fun hh => hb ⟨by simp [h], hh⟩
        · left; exact h
      simpa using replCRLF_cons_of_ne hc
  | case3 c1 c2 r h ih =>
      intro b hb
      obtain ⟨rfl, rfl⟩ := h
      have hr : ¬(r.getLast? = some '\r' ∧ b.head? = some '\n') := by
        cases r with
        | nil => simp
        | cons x xs =>
            intro hx
            refine hb ⟨?_, hx.2⟩
            rw [List.getLast?_cons_cons, List.getLast?_cons_cons]
            exact hx.1
      show replCRLF ('\r' :: '\n' :: (r ++ b)) = replCRLF ('\r' :: '\n' :: r) ++ replCRLF b
      rw [replCRLF_crlf, replCRLF_crlf, ih b hr, List.cons_append]
  | case4 c1 c2 r h ih =>
      intro b hb
      have h2 : ¬((c2 :: r).getLast? = some '\r' ∧ b.head? = some '\n') := by
        intro hx
        exact hb ⟨by rw [List.getLast?_cons_cons]; exact hx.1, hx.2⟩
      have e1 : replCRLF (c1 :: ((c2 :: r) ++ b)) = c1 :: replCRLF ((c2 :: r) ++ b) := by
        apply replCRLF_cons_of_ne
        by_cases hc : c1 = '\r'
        · right
          intro hh
          simp only [List.cons_append, List.head?_cons, Option.some.injEq] at hh
          exact h ⟨hc, hh⟩
        · left; exact hc
      have e2 : replCRLF (c1 :: c2 :: r) = c1 :: replCRLF (c2 :: r) := by
        apply replCRLF_cons_of_ne
        by_cases hc : c1 = '\r'
        · right
          intro hh
          simp only [List.head?_cons, Option.some.injEq] at hh
          exact h ⟨hc, hh⟩
        · left; exact hc
      show replCRLF (c1 :: ((c2 :: r) ++ b)) = replCRLF (c1 :: c2 :: r) ++ replCRLF b
      rw [e1, ih b h2, e2, List.cons_append]

theorem replCRLF_append_crlf (s b : Str) :
    replCRLF (s ++ '\r' :: '\n' :: b) = replCRLF s ++ ' ' :: replCRLF b := by
  rw [replCRLF_append s ('\r' :: '\n' :: b) (by simp), replCRLF_crlf]

theorem replCRLF_of_no_cr {s : Str} (h : '\r' ∉ s) : replCRLF s = s := by
  induction s using replCRLF.induct with
  | case1 => rfl
  | case2 c => rfl
  | case3 c1 c2 r hc ih => exact absurd (hc.1 ▸ List.mem_cons_self c1 _) h
  | case4 c1 c2 r hc ih =>
      have : '\r' ∉ c2 :: r := fun hm => h (List.mem_cons_of_mem c1 hm)
      have hc1 : ¬(c1 = '\r' ∧ (c2 :: r).head? = some '\n') := by
        intro hx
        exact h (hx.1 ▸ List.mem_cons_self c1 _)
      rw [replCRLF_cons_of_ne (not_and_or.mp hc1), ih this]

theorem replCRLF_all {P : Char → Bool} {s : Str} (hs : s.all P) (hsp : P ' ') :
    (replCRLF s).all P := by
  induction s using replCRLF.induct with
  | case1 => rfl
  | case2 c => exact hs
  | case3 c1 c2 r hc ih =>
      obtain ⟨rfl, rfl⟩ := hc
      simp only [List.all_cons, Bool.and_eq_true] at hs
      rw [replCRLF_crlf]
      simp only [List.all_cons, Bool.and_eq_true]
      exact ⟨hsp, ih hs.2.2⟩
  | case4 c1 c2 r hc ih =>
      simp only [List.all_cons, Bool.and_eq_true] at hs
      rw [replCRLF_cons_of_ne (by
        rcases Decidable.not_and_iff_or_not.mp hc with h | h
        · exact Or.inl h
        · right; intro hh; exact h (by injection hh))]
      simp only [List.all_cons, Bool.and_eq_true]
      refine ⟨hs.1, ?_⟩
      have := ih (by simp [List.all_cons, hs.2.1, hs.2.2])
      simpa using this

theorem replNL_of_no_nl {s : Str} (h : '\n' ∉ s) : replNL s = s := by
  unfold replNL
  induction s with
  | nil => rfl
  | cons c r ih =>
      have hc : c ≠ '\n' := fun hc => h (hc ▸ List.mem_cons_self c r)
      have hr : '\n' ∉ r := fun hr => h (List.mem_cons_of_mem c hr)
      simp [hc, ih hr]

theorem replNL_append (a b : Str) : replNL (a ++ b) = replNL a ++ replNL b :=
  List.map_append _ a b

theorem replNL_all {P : Char → Bool} {s : Str} (hs : s.all P) (hsp : P ' ') :
    (replNL s).all P := by
  unfold replNL
  rw [List.all_map]
  refine List.all_eq_true.mpr ?_
  intro c hc
  by_cases h : c = '\n'
  · simpa [Function.comp, h] using hsp
  · simpa [Function.comp, h] using List.all_eq_true.mp hs c hc

/-! ### Lemmas about trimming and item parsing -/

theorem dropWhile_of_clean {s : Str} (h : s.all (fun c => !isGoSpace c)) :
    s.dropWhile isGoSpace = s := by
  cases s with
  | nil => rfl
  | cons c r =>
      simp only [List.all_cons, Bool.and_eq_true, Bool.not_eq_true'] at h
      simp [List.dropWhile, h.1]

theorem trimSpace_of_clean {s : Str} (h : s.all (fun c => !isGoSpace c)) :
    trimSpace s = s := by
  unfold trimSpace
  rw [dropWhile_of_clean h, dropWhile_of_clean (by rwa [List.all_reverse]),
    List.reverse_reverse]

theorem dropWhile_of_all_space {s : Str} (h : s.all isGoSpace) :
    s.dropWhile isGoSpace = [] := by
  induction s with
  | nil => rfl
  | cons c r ih =>
      simp only [List.all_cons, Bool.and_eq_true] at h
      simp [List.dropWhile, h.1, ih h.2]

theorem trimSpace_of_all_space {s : Str} (h : s.all isGoSpace) :
    trimSpace s = [] := by
  unfold trimSpace
  rw [dropWhile_of_all_space h]
  rfl

theorem itemFn_of_all_space {t : Str} (h : t.all isGoSpace) : itemFn t = none := by
  unfold itemFn
  rw [trimSpace_of_all_space h]
  rfl

theorem splitEq_append {a : Str} (ha : '=' ∉ a) (b : Str) :
    splitEq (a ++ '=' :: b) = some (a, b) := by
  induction a with
  | nil => simp [splitEq]
  | cons c a' ih =>
      have hc : c ≠ '=' := fun hc => ha (hc ▸ List.mem_cons_self c a')
      have ha' : '=' ∉ a' := fun hm => ha (List.mem_cons_of_mem c hm)
      simp [splitEq, hc, ih ha']

/-! ### Lemmas about digits and `atoi` -/

theorem natDigitCh_toNat {d : Nat} (h : d < 10) : (natDigitCh d).toNat = 48 + d := by
  interval_cases d <;> rfl

theorem isDigitCh_natDigitCh {d : Nat} (h : d < 10) : isDigitCh (natDigitCh d) = true := by
  interval_cases d <;> rfl

theorem natDigits_ne_nil (n : Nat) : natDigits n ≠ [] := by
  unfold natDigits
  split
  · simp
  · simp

theorem natDigits_all_digit (n : Nat) : (natDigits n).all isDigitCh = true := by
  induction n using Nat.strong_induction_on with
  | _ n ih =>
      unfold natDigits
      split
      · next h => simp [isDigitCh_natDigitCh h]
      · next h =>
          rw [List.all_append]
          have h1 := ih (n / 10) (Nat.div_lt_self (by omega) (by omega))
          have h2 : isDigitCh (natDigitCh (n % 10)) = true :=
            isDigitCh_natDigitCh (Nat.mod_lt n (by omega))
          simp [h1, h2]

theorem digitsToNat_append_one (a : Str) (c : Char) :
    digitsToNat (a ++ [c]) = 10 * digitsToNat a + (c.toNat - 48) := by
  unfold digitsToNat
  rw [List.foldl_append]
  rfl

theorem digitsToNat_natDigits (n : Nat) : digitsToNat (natDigits n) = n := by
  induction n using Nat.strong_induction_on with
  | _ n ih =>
      unfold natDigits
      split
      · next h =>
          show digitsToNat [natDigitCh n] = n
          unfold digitsToNat
          simp [natDigitCh_toNat h]
      · next h =>
          rw [digitsToNat_append_one, ih (n / 10) (Nat.div_lt_self (by omega) (by omega)),
            natDigitCh_toNat (Nat.mod_lt n (by omega))]
          omega

theorem isDigitCh_range {c : Char} (h : isDigitCh c = true) :
    48 ≤ c.toNat ∧ c.toNat ≤ 57 := by
  simpa [isDigitCh] using h

theorem ne_of_toNat_ne {c d : Char} (h : c.toNat ≠ d.toNat) : c ≠ d :=
  fun he => h (he ▸ rfl)

theorem atoi_dash (r : Str) : atoi ('-' :: r) = atoiCore true r := rfl

theorem atoi_other {c : Char} (r : Str) (h1 : c ≠ '-') (h2 : c ≠ '+') :
    atoi (c :: r) = atoiCore false (c :: r) := by
  rw [atoi.eq_def]
  split
  · next r' heq =>
      injection heq with h _
      exact absurd h h1
  · next r' heq =>
      injection heq with h _
      exact absurd h h2
  · rfl

theorem atoiCore_digits {ds : Str} (hne : ds ≠ []) (hall : ds.all isDigitCh = true)
    (hrange : (digitsToNat ds : Int) ≤ 2 ^ 63 - 1) :
    atoiCore false ds = some ((digitsToNat ds : Int)) := by
  unfold atoiCore
  rw [if_neg (by simpa [List.isEmpty_iff] using hne), if_pos hall]
  simp only [if_false, Bool.false_eq_true]
  rw [if_neg (by push_neg; refine ⟨by omega, hrange⟩)]

theorem atoiCore_neg_digits {ds : Str} (hne : ds ≠ []) (hall : ds.all isDigitCh = true)
    (hrange : (digitsToNat ds : Int) ≤ 2 ^ 63) :
    atoiCore true ds = some (-(digitsToNat ds : Int)) := by
  unfold atoiCore
  rw [if_neg (by simpa [List.isEmpty_iff] using hne), if_pos hall]
  simp only [if_true]
  rw [if_neg (by push_neg; constructor <;> omega)]

theorem atoi_renderInt {v : Int} (h1 : -(2 ^ 63 : Int) ≤ v) (h2 : v ≤ (2 ^ 63 - 1 : Int)) :
    atoi (renderInt v) = some v := by
  by_cases hv : v < 0
  · unfold renderInt
    rw [if_pos hv, atoi_dash]
    have hval : digitsToNat (natDigits v.natAbs) = v.natAbs := digitsToNat_natDigits _
    rw [atoiCore_neg_digits (natDigits_ne_nil _) (natDigits_all_digit _)
      (by rw [hval]; omega)]
    rw [hval]
    congr 1
    omega
  · unfold renderInt
    rw [if_neg hv]
    have hcast : (digitsToNat (natDigits v.toNat) : Int) = v := by
      rw [digitsToNat_natDigits]
      omega
    obtain ⟨c, r, hcr⟩ := List.exists_cons_of_ne_nil (natDigits_ne_nil v.toNat)
    have hc : isDigitCh c = true := by
      have := List.all_eq_true.mp (natDigits_all_digit v.toNat) c
        (hcr ▸ List.mem_cons_self c r)
      simpa using this
    have h45 : ('-').toNat = 45 := rfl
    have h43 : ('+').toNat = 43 := rfl
    have hcm : c ≠ '-' := ne_of_toNat_ne (by have := isDigitCh_range hc; omega)
    have hcp : c ≠ '+' := ne_of_toNat_ne (by have := isDigitCh_range hc; omega)
    rw [hcr, atoi_other r hcm hcp, ← hcr,
      atoiCore_digits (natDigits_ne_nil _) (natDigits_all_digit _) (by rw [hcast]; exact h2),
      hcast]

/-! ### Character-class facts about the canonical rendering -/

/-- Characters allowed inside an item: not trimmed by `TrimSpace` (in
particular not a space, CR or LF). -/
def itemCh (c : Char) : Bool := !isGoSpace c

/-- Characters allowed inside a rendered value: an item character that is
also no comma and no equals sign. -/
def valCh (c : Char) : Bool := !isGoSpace c && !(c == ',') && !(c == '=')

theorem not_mem_of_all {P : Char → Bool} {s : Str} (h : s.all P = true) {c : Char}
    (hc : P c = false) : c ∉ s := by
  intro hm
  have := List.all_eq_true.mp h c hm
  rw [hc] at this
  exact absurd this (by simp)

theorem valCh_of_digit {c : Char} (h : isDigitCh c = true) : valCh c = true := by
  obtain ⟨hl, hu⟩ := isDigitCh_range h
  have hsp : isGoSpace c = false := by
    unfold isGoSpace
    rw [decide_eq_false_iff_not]
    omega
  have h44 : (',').toNat = 44 := rfl
  have h61 : ('=').toNat = 61 := rfl
  have hc1 : (c == ',') = false := by
    rw [beq_eq_false_iff_ne]
    exact ne_of_toNat_ne (by omega)
  have hc2 : (c == '=') = false := by
    rw [beq_eq_false_iff_ne]
    exact ne_of_toNat_ne (by omega)
  simp [valCh, hsp, hc1, hc2]

theorem all_val_of_digits {s : Str} (h : s.all isDigitCh = true) : s.all valCh = true :=
  List.all_eq_true.mpr fun c hc => valCh_of_digit (List.all_eq_true.mp h c hc)

theorem itemCh_of_val {c : Char} (h : valCh c = true) : itemCh c = true := by
  unfold valCh at h
  simp only [Bool.and_eq_true] at h
  exact h.1.1

theorem all_item_of_val {s : Str} (h : s.all valCh = true) : s.all itemCh = true :=
  List.all_eq_true.mpr fun c hc => itemCh_of_val (List.all_eq_true.mp h c hc)

theorem renderInt_all_val (v : Int) : (renderInt v).all valCh = true := by
  unfold renderInt
  split
  · rw [List.all_cons]
    have h1 : valCh '-' = true := by decide
    have h2 := all_val_of_digits (natDigits_all_digit v.natAbs)
    simp [h1, h2]
  · exact all_val_of_digits (natDigits_all_digit v.toNat)

theorem renderMinV_all_val (v : Int) : (renderMinV v).all valCh = true := by
  unfold renderMinV
  split
  · decide
  · exact renderInt_all_val v

theorem renderInt_ne_disabled (v : Int) : renderInt v ≠ litDisabled := by
  unfold renderInt
  split
  · intro h
    have hh : some '-' = some 'd' := by
      have := congrArg List.head? h
      simpa [litDisabled] using this
    exact absurd (by injection hh) (by decide)
  · intro h
    obtain ⟨c, r, hcr⟩ := List.exists_cons_of_ne_nil (natDigits_ne_nil v.toNat)
    have hc : isDigitCh c = true := by
      have := List.all_eq_true.mp (natDigits_all_digit v.toNat) c
        (hcr ▸ List.mem_cons_self c r)
      simpa using this
    rw [hcr] at h
    have hh : some c = some 'd' := by
      have := congrArg List.head? h
      simpa [litDisabled] using this
    have hcd : c = 'd' := by injection hh
    rw [hcd] at hc
    exact absurd hc (by decide)

theorem parseMinVal_render {v : Int} (h1 : inI64 v) :
    parseMinVal (renderMinV v) = some v := by
  unfold renderMinV parseMinVal
  by_cases hv : v = DisabledV
  · rw [if_pos hv, if_pos rfl, hv]
  · rw [if_neg hv, if_neg (renderInt_ne_disabled v)]
    exact atoi_renderInt h1.1 h1.2

/-! ### Item-level lemmas for the canonical rendering -/

theorem fmtMin_all_item (p : Policy) : (fmtMin p).all itemCh = true := by
  unfold fmtMin
  have hl : litMin.all itemCh = true := by decide
  have he : itemCh '=' = true := by decide
  have hc : itemCh ',' = true := by decide
  have h0 := all_item_of_val (renderMinV_all_val p.min0)
  have h1 := all_item_of_val (renderMinV_all_val p.min1)
  have h2 := all_item_of_val (renderMinV_all_val p.min2)
  have h3 := all_item_of_val (renderMinV_all_val p.min3)
  have h4 := all_item_of_val (renderMinV_all_val p.min4)
  simp [List.all_append, List.all_cons, hl, he, hc, h0, h1, h2, h3, h4]

theorem fmtMax_all_item (p : Policy) : (fmtMax p).all itemCh = true := by
  unfold fmtMax
  have hl : litMax.all itemCh = true := by decide
  have he : itemCh '=' = true := by decide
  have h0 := all_item_of_val (renderInt_all_val p.max)
  simp [List.all_append, List.all_cons, hl, he, h0]

theorem fmtPassphrase_all_item (p : Policy) : (fmtPassphrase p).all itemCh = true := by
  unfold fmtPassphrase
  have hl : litPassphrase.all itemCh = true := by decide
  have he : itemCh '=' = true := by decide
  have h0 := all_item_of_val (renderInt_all_val p.passphraseWords)
  simp [List.all_append, List.all_cons, hl, he, h0]

theorem fmtMatch_all_item (p : Policy) : (fmtMatch p).all itemCh = true := by
  unfold fmtMatch
  have hl : litMatch.all itemCh = true := by decide
  have he : itemCh '=' = true := by decide
  have h0 := all_item_of_val (renderInt_all_val p.matchLength)
  simp [List.all_append, List.all_cons, hl, he, h0]

theorem fmtSimilar_all_item (p : Policy) : (fmtSimilar p).all itemCh = true := by
  unfold fmtSimilar
  split <;> decide

theorem itemFn_fmtMin (p : Policy) (h0 : inI64 p.min0) (h1 : inI64 p.min1)
    (h2 : inI64 p.min2) (h3 : inI64 p.min3) (h4 : inI64 p.min4) :
    itemFn (fmtMin p) = some (fun q => { q with min0 := p.min0, min1 := p.min1,
                                                min2 := p.min2, min3 := p.min3,
                                                min4 := p.min4 }) := by
  have htrim : trimSpace (fmtMin p) = fmtMin p :=
    trimSpace_of_clean (by simpa [itemCh] using fmtMin_all_item p)
  have he : fmtMin p = litMin ++ '=' :: (renderMinV p.min0 ++ ',' ::
      (renderMinV p.min1 ++ ',' :: (renderMinV p.min2 ++ ',' ::
        (renderMinV p.min3 ++ ',' :: renderMinV p.min4)))) := rfl
  have hns : ∀ v : Int, ',' ∉ renderMinV v := fun v =>
    not_mem_of_all (renderMinV_all_val v) (by decide)
  unfold itemFn
  rw [htrim, he, splitEq_append (by decide)]
  rw [Option.some_bind]
  unfold itemBody
  rw [if_pos rfl]
  rw [splitCh_append_sep, splitCh_append_sep, splitCh_append_sep, splitCh_append_sep,
    splitCh_of_no_sep _ _ (hns p.min0), splitCh_of_no_sep _ _ (hns p.min1),
    splitCh_of_no_sep _ _ (hns p.min2), splitCh_of_no_sep _ _ (hns p.min3),
    splitCh_of_no_sep _ _ (hns p.min4)]
  simp only [List.singleton_append, List.cons_append, List.nil_append]
  simp only [parseMins]
  rw [parseMinVal_render h0, Option.some_bind, parseMinVal_render h1, Option.some_bind,
    parseMinVal_render h2, Option.some_bind, parseMinVal_render h3, Option.some_bind,
    parseMinVal_render h4, Option.map_some']

theorem itemFn_fmtMax (p : Policy) (h : inI64 p.max) :
    itemFn (fmtMax p) = some (fun q => { q with max := p.max }) := by
  have htrim : trimSpace (fmtMax p) = fmtMax p :=
    trimSpace_of_clean (by simpa [itemCh] using fmtMax_all_item p)
  have he : fmtMax p = litMax ++ '=' :: renderInt p.max := rfl
  unfold itemFn
  rw [htrim, he, splitEq_append (by decide)]
  rw [Option.some_bind]
  unfold itemBody
  rw [if_neg (by decide : ¬litMax = litMin), if_pos rfl, atoi_renderInt h.1 h.2,
    Option.map_some']

theorem itemFn_fmtPassphrase (p : Policy) (h : inI64 p.passphraseWords) :
    itemFn (fmtPassphrase p) =
      some (fun q => { q with passphraseWords := p.passphraseWords }) := by
  have htrim : trimSpace (fmtPassphrase p) = fmtPassphrase p :=
    trimSpace_of_clean (by simpa [itemCh] using fmtPassphrase_all_item p)
  have he : fmtPassphrase p = litPassphrase ++ '=' :: renderInt p.passphraseWords := rfl
  unfold itemFn
  rw [htrim, he, splitEq_append (by decide)]
  rw [Option.some_bind]
  unfold itemBody
  rw [if_neg (by decide : ¬litPassphrase = litMin),
    if_neg (by decide : ¬litPassphrase = litMax), if_pos rfl, atoi_renderInt h.1 h.2,
    Option.map_some']

theorem itemFn_fmtMatch (p : Policy) (h : inI64 p.matchLength) :
    itemFn (fmtMatch p) = some (fun q => { q with matchLength := p.matchLength }) := by
  have htrim : trimSpace (fmtMatch p) = fmtMatch p :=
    trimSpace_of_clean (by simpa [itemCh] using fmtMatch_all_item p)
  have he : fmtMatch p = litMatch ++ '=' :: renderInt p.matchLength := rfl
  unfold itemFn
  rw [htrim, he, splitEq_append (by decide)]
  rw [Option.some_bind]
  unfold itemBody
  rw [if_neg (by decide : ¬litMatch = litMin),
    if_neg (by decide : ¬litMatch = litMax),
    if_neg (by decide : ¬litMatch = litPassphrase), if_pos rfl,
    atoi_renderInt h.1 h.2, Option.map_some']

theorem itemFn_fmtSimilar (p : Policy) :
    itemFn (fmtSimilar p) = some (fun q => { q with denySimilar := p.denySimilar }) := by
  have htrim : trimSpace (fmtSimilar p) = fmtSimilar p :=
    trimSpace_of_clean (by simpa [itemCh] using fmtSimilar_all_item p)
  have he : fmtSimilar p = litSimilar ++ '=' ::
      (if p.denySimilar then litDeny else litPermit) := rfl
  unfold itemFn
  rw [htrim, he, splitEq_append (by decide)]
  rw [Option.some_bind]
  unfold itemBody
  rw [if_neg (by decide : ¬litSimilar = litMin),
    if_neg (by decide : ¬litSimilar = litMax),
    if_neg (by decide : ¬litSimilar = litPassphrase),
    if_neg (by decide : ¬litSimilar = litMatch), if_pos rfl]
  cases hds : p.denySimilar with
  | true => rw [if_pos rfl, if_pos rfl]
  | false => rw [if_neg (by decide), if_pos (by decide)]

/-! ### Format-level lemmas -/

theorem sep_notin_format {c : Char} (hc : itemCh c = false) (hc2 : c ≠ ' ')
    (p : Policy) : c ∉ formatPolicy p := by
  unfold formatPolicy
  intro hm
  simp only [List.mem_append, List.mem_cons] at hm
  rcases hm with h | h | h | h | h | h | h | h | h
  · exact not_mem_of_all (fmtMin_all_item p) hc h
  · exact hc2 h
  · exact not_mem_of_all (fmtMax_all_item p) hc h
  · exact hc2 h
  · exact not_mem_of_all (fmtPassphrase_all_item p) hc h
  · exact hc2 h
  · exact not_mem_of_all (fmtMatch_all_item p) hc h
  · exact hc2 h
  · exact not_mem_of_all (fmtSimilar_all_item p) hc h

theorem normalize_formatPolicy (p : Policy) :
    normalize (formatPolicy p) = formatPolicy p := by
  unfold normalize
  rw [replCRLF_of_no_cr (sep_notin_format (by decide) (by decide) p),
    replNL_of_no_nl (sep_notin_format (by decide) (by decide) p)]

theorem splitCh_formatPolicy (p : Policy) :
    splitCh ' ' (formatPolicy p) =
      [fmtMin p, fmtMax p, fmtPassphrase p, fmtMatch p, fmtSimilar p] := by
  have n1 : ' ' ∉ fmtMin p := not_mem_of_all (fmtMin_all_item p) (by decide)
  have n2 : ' ' ∉ fmtMax p := not_mem_of_all (fmtMax_all_item p) (by decide)
  have n3 : ' ' ∉ fmtPassphrase p := not_mem_of_all (fmtPassphrase_all_item p) (by decide)
  have n4 : ' ' ∉ fmtMatch p := not_mem_of_all (fmtMatch_all_item p) (by decide)
  have n5 : ' ' ∉ fmtSimilar p := not_mem_of_all (fmtSimilar_all_item p) (by decide)
  unfold formatPolicy
  rw [splitCh_append_sep, splitCh_append_sep, splitCh_append_sep, splitCh_append_sep,
    splitCh_of_no_sep _ _ n1, splitCh_of_no_sep _ _ n2, splitCh_of_no_sep _ _ n3,
    splitCh_of_no_sep _ _ n4, splitCh_of_no_sep _ _ n5]
  rfl

theorem parse_format_eq (p : Policy) (hr : PolicyInRange p) :
    parsePolicy (formatPolicy p) = some p := by
  obtain ⟨hm0, hm1, hm2, hm3, hm4, hmx, hpw, hml⟩ := hr
  unfold parsePolicy parsePolicyS
  rw [normalize_formatPolicy, splitCh_formatPolicy]
  simp only [goItems, goItem, itemFn_fmtMin p hm0 hm1 hm2 hm3 hm4,
    itemFn_fmtMax p hmx, itemFn_fmtPassphrase p hpw, itemFn_fmtMatch p hml,
    itemFn_fmtSimilar p, Option.map_some']

/-! ### Shape of `normalize` around separators (for C9) -/

theorem normalize_cons_sep {c : Char} (hc : c = ' ' ∨ c = '\n') (s : Str) :
    normalize (c :: s) = ' ' :: normalize s := by
  unfold normalize
  rw [replCRLF_cons_of_ne (Or.inl (by rcases hc with rfl | rfl <;> decide))]
  rcases hc with rfl | rfl <;> simp [replNL]

theorem crlf_end_split {s : Str} (hb : s.getLast? = some '\r') :
    s.dropLast ++ ['\r'] = s := by
  have hne : s ≠ [] := by
    intro h
    rw [h] at hb
    exact absurd hb (by simp)
  have hl : s.getLast hne = '\r' := by
    have := List.getLast?_eq_getLast s hne
    rw [this] at hb
    injection hb
  rw [← hl]
  exact List.dropLast_append_getLast hne

theorem normalize_append_sep {c : Char} (hc : c = ' ' ∨ c = '\n') (s : Str) :
    ∃ u, normalize (s ++ [c]) = u ++ [' '] := by
  by_cases hb : s.getLast? = some '\r' ∧ c = '\n'
  · obtain ⟨hb1, rfl⟩ := hb
    refine ⟨normalize s.dropLast, ?_⟩
    conv_lhs => rw [← crlf_end_split hb1]
    rw [List.append_assoc, List.singleton_append]
    unfold normalize
    rw [replCRLF_append_crlf, replNL_append]
    rfl
  · refine ⟨normalize s, ?_⟩
    unfold normalize
    rw [replCRLF_append s [c] (by
      intro hx
      refine hb ⟨hx.1, ?_⟩
      have := hx.2
      simpa using this)]
    rw [replNL_append]
    rcases hc with rfl | rfl <;> rfl

theorem normalize_append_sep2 {c1 c2 : Char} (h1 : c1 = ' ' ∨ c1 = '\n')
    (h2 : c2 = ' ' ∨ c2 = '\n') (s t : Str) :
    ∃ u, normalize (s ++ c1 :: c2 :: t) = u ++ ' ' :: ' ' :: normalize t := by
  have hc2r : c2 ≠ '\r' := by rcases h2 with rfl | rfl <;> decide
  by_cases hb : s.getLast? = some '\r' ∧ c1 = '\n'
  · obtain ⟨hb1, rfl⟩ := hb
    refine ⟨normalize s.dropLast, ?_⟩
    conv_lhs => rw [← crlf_end_split hb1]
    rw [List.append_assoc, List.singleton_append]
    unfold normalize
    rw [replCRLF_append_crlf, replCRLF_cons_of_ne (Or.inl hc2r), replNL_append]
    rcases h2 with rfl | rfl <;> rfl
  · have hc1r : c1 ≠ '\r' := by rcases h1 with rfl | rfl <;> decide
    refine ⟨normalize s, ?_⟩
    unfold normalize
    rw [replCRLF_append s (c1 :: c2 :: t) (by
      intro hx
      refine hb ⟨hx.1, ?_⟩
      have := hx.2
      simpa using this)]
    rw [replCRLF_cons_of_ne (Or.inl hc1r), replCRLF_cons_of_ne (Or.inl hc2r),
      replNL_append]
    rcases h1 with rfl | rfl <;> rcases h2 with rfl | rfl <;> rfl

/-! ### Parse errors forced by separator shapes -/

theorem parse_err_of_norm_leading {cfg : Str} (h : ∃ w, normalize cfg = ' ' :: w) :
    parsePolicy cfg = none := by
  obtain ⟨w, hw⟩ := h
  unfold parsePolicy parsePolicyS
  rw [hw, splitCh_cons_sep]
  exact nil_item_err _ _ (List.mem_cons_self _ _)

theorem parse_err_of_norm_trailing {cfg : Str} (h : ∃ u, normalize cfg = u ++ [' ']) :
    parsePolicy cfg = none := by
  obtain ⟨u, hu⟩ := h
  unfold parsePolicy parsePolicyS
  rw [hu, show u ++ [' '] = u ++ ' ' :: ([] : Str) from rfl, splitCh_append_sep]
  refine nil_item_err _ _ ?_
  rw [splitCh_nil]
  exact List.mem_append_right _ (List.mem_cons_self _ _)

theorem parse_err_of_norm_mid {cfg : Str}
    (h : ∃ u w, normalize cfg = u ++ ' ' :: ' ' :: w) : parsePolicy cfg = none := by
  obtain ⟨u, w, hw⟩ := h
  unfold parsePolicy parsePolicyS
  rw [hw, splitCh_append_sep, splitCh_cons_sep]
  refine nil_item_err _ _ ?_
  exact List.mem_append_right _ (List.mem_cons_self _ _)

/-! ### Whitespace-only configurations -/

/-- Space, tab, newline or carriage return. -/
def wsCl (c : Char) : Bool := c == ' ' || c == '\t' || c == '\n' || c == '\r'

theorem isGoSpace_of_wsCl {c : Char} (h : wsCl c = true) : isGoSpace c = true := by
  unfold wsCl at h
  simp only [Bool.or_eq_true, beq_iff_eq] at h
  rcases h with ((rfl | rfl) | rfl) | rfl <;> decide

theorem parse_err_of_all_ws {s : Str} (h : s.all wsCl = true) : parsePolicy s = none := by
  have h1 : (replCRLF s).all wsCl = true := replCRLF_all h (by decide)
  have h2 : (normalize s).all wsCl = true := replNL_all h1 (by decide)
  unfold parsePolicy parsePolicyS
  obtain ⟨t, ts, hts⟩ := splitCh_dest ' ' (normalize s)
  rw [hts]
  have htP : t.all wsCl = true :=
    splitCh_all ' ' _ h2 (hts ▸ List.mem_cons_self t ts)
  have htg : t.all isGoSpace = true :=
    List.all_eq_true.mpr fun c hc => isGoSpace_of_wsCl (List.all_eq_true.mp htP c hc)
  exact goItems_err_of_mem (itemFn_of_all_space htg) _ _ (List.mem_cons_self _ _)

/-! ### Two-item configurations (for C8) -/

theorem normalize_join2 {a b : Str} (ha : a.all itemCh = true)
    (hb : b.all itemCh = true) : normalize (a ++ ' ' :: b) = a ++ ' ' :: b := by
  have hmem : ∀ {c : Char}, itemCh c = false → c ≠ ' ' → c ∉ a ++ ' ' :: b := by
    intro c hc hcs hm
    simp only [List.mem_append, List.mem_cons] at hm
    rcases hm with h | h | h
    · exact not_mem_of_all ha hc h
    · exact hcs h
    · exact not_mem_of_all hb hc h
  unfold normalize
  rw [replCRLF_of_no_cr (hmem (by decide) (by decide)),
    replNL_of_no_nl (hmem (by decide) (by decide))]

theorem splitCh_join2 {a b : Str} (ha : ' ' ∉ a) (hb : ' ' ∉ b) :
    splitCh ' ' (a ++ ' ' :: b) = [a, b] := by
  rw [splitCh_append_sep, splitCh_of_no_sep _ _ ha, splitCh_of_no_sep _ _ hb]
  rfl

theorem parse_two_max (m1 m2 : Int) (h1 : inI64 m1) (h2 : inI64 m2) :
    parsePolicy ((litMax ++ '=' :: renderInt m1) ++ ' ' ::
      (litMax ++ '=' :: renderInt m2)) = some { DefaultPolicy with max := m2 } := by
  have e1 : litMax ++ '=' :: renderInt m1 = fmtMax { DefaultPolicy with max := m1 } := rfl
  have e2 : litMax ++ '=' :: renderInt m2 = fmtMax { DefaultPolicy with max := m2 } := rfl
  unfold parsePolicy parsePolicyS
  rw [e1, e2, normalize_join2 (fmtMax_all_item _) (fmtMax_all_item _),
    splitCh_join2 (not_mem_of_all (fmtMax_all_item _) (by decide))
      (not_mem_of_all (fmtMax_all_item _) (by decide))]
  simp only [goItems, goItem,
    itemFn_fmtMax { DefaultPolicy with max := m1 } (by exact h1),
    itemFn_fmtMax { DefaultPolicy with max := m2 } (by exact h2), Option.map_some']

/-! ### Semantic reading of items and general configurations (for C8)

Every `case` of `ParsePolicy`'s switch either fails or writes one named
group of fields with constant values.  `ItemVal` records that semantic
content; `itemVal?` reads it off an item exactly as `itemFn` does, and
`itemFn_eq` proves the two agree.  This supports the fully general
last-occurrence-wins statement of claim C8. -/

/-- The semantic content of one well-formed item: which field group it
sets and to which values.  `mins` corresponds to the `min` item (all five
entries at once), the others to `max`, `passphrase`, `match` and
`similar`. -/
inductive ItemVal where
  | mins (x0 x1 x2 x3 x4 : Int)
  | maxv (v : Int)
  | passv (v : Int)
  | matchv (v : Int)
  | simv (b : Bool)
deriving DecidableEq, Repr

/-- The field write performed by one well-formed item. -/
def applyVal (p : Policy) : ItemVal → Policy
  | .mins x0 x1 x2 x3 x4 =>
      { p with min0 := x0, min1 := x1, min2 := x2, min3 := x3, min4 := x4 }
  | .maxv v => { p with max := v }
  | .passv v => { p with passphraseWords := v }
  | .matchv v => { p with matchLength := v }
  | .simv b => { p with denySimilar := b }

/-- Semantic counterpart of `parseMins`. -/
def parseMinsVal : List Str → Option ItemVal
  | [a, b, c, d, e] =>
      (parseMinVal a).bind fun x0 =>
      (parseMinVal b).bind fun x1 =>
      (parseMinVal c).bind fun x2 =>
      (parseMinVal d).bind fun x3 =>
      (parseMinVal e).map fun x4 => ItemVal.mins x0 x1 x2 x3 x4
  | _ => none

/-- Semantic counterpart of `itemBody`: the same switch, returning the
item's content instead of the update function. -/
def itemValBody (name value : Str) : Option ItemVal :=
  if name = litMin then parseMinsVal (splitCh ',' value)
  else if name = litMax then (atoi value).map ItemVal.maxv
  else if name = litPassphrase then (atoi value).map ItemVal.passv
  else if name = litMatch then (atoi value).map ItemVal.matchv
  else if name = litSimilar then
    if value = litDeny then some (ItemVal.simv true)
    else if value = litPermit then some (ItemVal.simv false)
    else none
  else none

/-- Semantic counterpart of `itemFn`. -/
def itemVal? (it : Str) : Option ItemVal :=
  (splitEq (trimSpace it)).bind fun nv => itemValBody nv.1 nv.2

theorem parseMins_eq (ls : List Str) :
    parseMins ls = (parseMinsVal ls).map (fun iv p => applyVal p iv) := by
  rcases ls with _ | ⟨a, _ | ⟨b, _ | ⟨c, _ | ⟨d, _ | ⟨e, _ | ⟨f, rest⟩⟩⟩⟩⟩⟩
  · rfl
  · rfl
  · rfl
  · rfl
  · rfl
  · show parseMins [a, b, c, d, e] = _
    simp only [parseMins, parseMinsVal]
    cases ha : parseMinVal a with
    | none => rfl
    | some x0 =>
        simp only [Option.some_bind]
        cases hb : parseMinVal b with
        | none => rfl
        | some x1 =>
            simp only [Option.some_bind]
            cases hc : parseMinVal c with
            | none => rfl
            | some x2 =>
                simp only [Option.some_bind]
                cases hd : parseMinVal d with
                | none => rfl
                | some x3 =>
                    simp only [Option.some_bind]
                    cases he : parseMinVal e with
                    | none => rfl
                    | some x4 => rfl
  · rfl

theorem itemBody_eq (name value : Str) :
    itemBody name value = (itemValBody name value).map (fun iv p => applyVal p iv) := by
  unfold itemBody itemValBody
  by_cases h1 : name = litMin
  · rw [if_pos h1, if_pos h1]
    exact parseMins_eq (splitCh ',' value)
  · rw [if_neg h1, if_neg h1]
    by_cases h2 : name = litMax
    · rw [if_pos h2, if_pos h2]
      cases atoi value <;> rfl
    · rw [if_neg h2, if_neg h2]
      by_cases h3 : name = litPassphrase
      · rw [if_pos h3, if_pos h3]
        cases atoi value <;> rfl
      · rw [if_neg h3, if_neg h3]
        by_cases h4 : name = litMatch
        · rw [if_pos h4, if_pos h4]
          cases atoi value <;> rfl
        · rw [if_neg h4, if_neg h4]
          by_cases h5 : name = litSimilar
          · rw [if_pos h5, if_pos h5]
            by_cases h6 : value = litDeny
            · rw [if_pos h6, if_pos h6]
              rfl
            · rw [if_neg h6, if_neg h6]
              by_cases h7 : value = litPermit
              · rw [if_pos h7, if_pos h7]
                rfl
              · rw [if_neg h7, if_neg h7]
                rfl
          · rw [if_neg h5, if_neg h5]
            rfl

theorem itemFn_eq (it : Str) :
    itemFn it = (itemVal? it).map (fun iv p => applyVal p iv) := by
  unfold itemFn itemVal?
  cases splitEq (trimSpace it) with
  | none => rfl
  | some nv =>
      simp only [Option.some_bind]
      exact itemBody_eq nv.1 nv.2

/-- Space-separated join of a list of items (the shape of a configuration
string with single-space separators). -/
def joinSp : List Str → Str
  | [] => []
  | [a] => a
  | a :: b :: rest => a ++ ' ' :: joinSp (b :: rest)

theorem joinSp_no_char {c : Char} (hc : itemCh c = false) (hcs : c ≠ ' ') :
    ∀ {its : List Str}, (∀ it ∈ its, it.all itemCh = true) → c ∉ joinSp its := by
  intro its
  induction its with
  | nil => intro _ hm; simp [joinSp] at hm
  | cons a rest ih =>
      intro h hm
      cases rest with
      | nil => exact not_mem_of_all (h a (List.mem_cons_self a [])) hc hm
      | cons b rest2 =>
          rw [show joinSp (a :: b :: rest2) = a ++ ' ' :: joinSp (b :: rest2) from rfl,
            List.mem_append, List.mem_cons] at hm
          rcases hm with hm | hm | hm
          · exact not_mem_of_all (h a (List.mem_cons_self a _)) hc hm
          · exact hcs hm
          · exact ih (fun it hit => h it (List.mem_cons_of_mem a hit)) hm

theorem normalize_joinSp {its : List Str} (h : ∀ it ∈ its, it.all itemCh = true) :
    normalize (joinSp its) = joinSp its := by
  unfold normalize
  rw [replCRLF_of_no_cr (joinSp_no_char (by decide) (by decide) h),
    replNL_of_no_nl (joinSp_no_char (by decide) (by decide) h)]

theorem splitCh_joinSp : ∀ {its : List Str}, its ≠ [] →
    (∀ it ∈ its, ' ' ∉ it) → splitCh ' ' (joinSp its) = its := by
  intro its
  induction its with
  | nil => intro hne _; exact absurd rfl hne
  | cons a rest ih =>
      intro _ hsp
      cases rest with
      | nil => exact splitCh_of_no_sep ' ' a (hsp a (List.mem_cons_self a []))
      | cons b rest2 =>
          rw [show joinSp (a :: b :: rest2) = a ++ ' ' :: joinSp (b :: rest2) from rfl,
            splitCh_append_sep, splitCh_of_no_sep ' ' a (hsp a (List.mem_cons_self a _)),
            ih (by simp) (fun it hit => hsp it (List.mem_cons_of_mem a hit))]
          rfl

theorem goItems_vals : ∀ (its : List Str) (ivs : List ItemVal),
    its.map itemVal? = ivs.map some →
    ∀ st : PEnv, (goItems st its).2 = some (ivs.foldl applyVal st.p) := by
  intro its
  induction its with
  | nil =>
      intro ivs h st
      cases ivs with
      | nil => rfl
      | cons iv r => simp at h
  | cons it rest ih =>
      intro ivs h st
      cases ivs with
      | nil => simp at h
      | cons iv ivr =>
          simp only [List.map_cons, List.cons.injEq] at h
          obtain ⟨h1, h2⟩ := h
          have hg : goItem st it = some { st with p := applyVal st.p iv } := by
            unfold goItem
            rw [itemFn_eq, h1, Option.map_some', Option.map_some']
          show (goItems st (it :: rest)).2 = some ((iv :: ivr).foldl applyVal st.p)
          unfold goItems
          simp only [hg]
          rw [List.foldl_cons]
          exact ih ivr h2 _

/-- General form of the parse of a space-joined configuration of
well-formed items: it succeeds and folds the items' field writes over the
default policy, in order. -/
theorem parse_joinSp (its : List Str) (ivs : List ItemVal) (hne : its ≠ [])
    (hclean : ∀ it ∈ its, it.all itemCh = true)
    (hwf : its.map itemVal? = ivs.map some) :
    parsePolicy (joinSp its) = some (ivs.foldl applyVal DefaultPolicy) := by
  unfold parsePolicy parsePolicyS
  rw [normalize_joinSp hclean,
    splitCh_joinSp hne (fun it hit => not_mem_of_all (hclean it hit) (by decide))]
  exact goItems_vals its ivs hwf ⟨DefaultPolicy, DefaultPolicy⟩

/-- Value written to a tracked field by the last item that writes it,
starting from a default. -/
def lastBy {α : Type} (f : ItemVal → Option α) (d : α) (ivs : List ItemVal) : α :=
  ivs.foldl (fun a iv => (f iv).getD a) d

theorem foldl_applyVal_field {α : Type} (g : Policy → α) (f : ItemVal → Option α)
    (hc : ∀ p iv, g (applyVal p iv) = (f iv).getD (g p)) :
    ∀ (ivs : List ItemVal) (p : Policy),
      g (ivs.foldl applyVal p) = lastBy f (g p) ivs := by
  intro ivs
  induction ivs with
  | nil => intro p; rfl
  | cons iv rest ih =>
      intro p
      show g ((iv :: rest).foldl applyVal p) = lastBy f (g p) (iv :: rest)
      rw [List.foldl_cons, ih (applyVal p iv)]
      unfold lastBy
      rw [List.foldl_cons, hc p iv]

/-- Tracked write of `min0` (set by `min` items). -/
def selMin0 : ItemVal → Option Int
  | .mins x0 _ _ _ _ => some x0
  | _ => none

/-- Tracked write of `min1`. -/
def selMin1 : ItemVal → Option Int
  | .mins _ x1 _ _ _ => some x1
  | _ => none

/-- Tracked write of `min2`. -/
def selMin2 : ItemVal → Option Int
  | .mins _ _ x2 _ _ => some x2
  | _ => none

/-- Tracked write of `min3`. -/
def selMin3 : ItemVal → Option Int
  | .mins _ _ _ x3 _ => some x3
  | _ => none

/-- Tracked write of `min4`. -/
def selMin4 : ItemVal → Option Int
  | .mins _ _ _ _ x4 => some x4
  | _ => none

/-- Tracked write of `max`. -/
def selMax : ItemVal → Option Int
  | .maxv v => some v
  | _ => none

/-- Tracked write of `passphraseWords`. -/
def selPassphrase : ItemVal → Option Int
  | .passv v => some v
  | _ => none

/-- Tracked write of `matchLength`. -/
def selMatch : ItemVal → Option Int
  | .matchv v => some v
  | _ => none

/-- Tracked write of `denySimilar`. -/
def selSimilar : ItemVal → Option Bool
  | .simv b => some b
  | _ => none

/-! ### Facts about `setMin` and `minAt` -/

theorem setMin_passphraseWords (p : Policy) (i : Nat) (m : Int) :
    (setMin p i m).passphraseWords = p.passphraseWords := by
  unfold setMin
  split_ifs <;> rfl

theorem setMin_matchLength (p : Policy) (i : Nat) (m : Int) :
    (setMin p i m).matchLength = p.matchLength := by
  unfold setMin
  split_ifs <;> rfl

theorem setMin_max (p : Policy) (i : Nat) (m : Int) :
    (setMin p i m).max = p.max := by
  unfold setMin
  split_ifs <;> rfl

theorem setMin_denySimilar (p : Policy) (i : Nat) (m : Int) :
    (setMin p i m).denySimilar = p.denySimilar := by
  unfold setMin
  split_ifs <;> rfl

theorem setMin_min0 {i : Nat} (hi : i ≠ 0) (p : Policy) (m : Int) :
    (setMin p i m).min0 = p.min0 := by
  unfold setMin
  split_ifs <;> simp_all

theorem setMin_min1 {i : Nat} (hi : i ≠ 1) (p : Policy) (m : Int) :
    (setMin p i m).min1 = p.min1 := by
  unfold setMin
  split_ifs <;> simp_all

theorem setMin_min2 {i : Nat} (hi : i ≠ 2) (p : Policy) (m : Int) :
    (setMin p i m).min2 = p.min2 := by
  unfold setMin
  split_ifs <;> simp_all

theorem setMin_min3 {i : Nat} (hi : i ≠ 3) (p : Policy) (m : Int) :
    (setMin p i m).min3 = p.min3 := by
  unfold setMin
  split_ifs <;> simp_all

theorem setMin_min4 {i : Nat} (hi : i ≠ 4) (p : Policy) (m : Int) :
    (setMin p i m).min4 = p.min4 := by
  unfold setMin
  split_ifs <;> simp_all

theorem minAt_setMin_self {i : Nat} (hi : i < 5) (p : Policy) (m : Int) :
    minAt (setMin p i m) i = m := by
  interval_cases i <;> rfl

theorem minAt_setMin_ne {i j : Nat} (hj : j ≠ i) (hj5 : j < 5) (p : Policy) (m : Int) :
    minAt (setMin p i m) j = minAt p j := by
  unfold minAt
  by_cases h0 : j = 0
  · subst h0
    rw [if_pos rfl, if_pos rfl, setMin_min0 (Ne.symm hj)]
  · rw [if_neg h0, if_neg h0]
    by_cases h1 : j = 1
    · subst h1
      rw [if_pos rfl, if_pos rfl, setMin_min1 (Ne.symm hj)]
    · rw [if_neg h1, if_neg h1]
      by_cases h2 : j = 2
      · subst h2
        rw [if_pos rfl, if_pos rfl, setMin_min2 (Ne.symm hj) p m]
      · rw [if_neg h2, if_neg h2]
        by_cases h3 : j = 3
        · subst h3
          rw [if_pos rfl, if_pos rfl, setMin_min3 (Ne.symm hj)]
        · have h4 : j = 4 := by omega
          subst h4
          rw [if_neg h3, if_neg h3, setMin_min4 (Ne.symm hj)]

/-! ### Monotonicity of the evaluator in a raised `min` tier -/

theorem isPersonal_setMin (p : Policy) (i : Nat) (m : Int) (s u : Str) :
    isPersonal (setMin p i m) s u = isPersonal p s u := by
  unfold isPersonal
  rw [setMin_matchLength]

theorem tierIndex_lt (c : Nat) : tierIndex c < 5 := by
  unfold tierIndex
  split_ifs <;> omega

theorem tierIndex_ne_two (c : Nat) : tierIndex c ≠ 2 := by
  unfold tierIndex
  split_ifs <;> omega

theorem classTier_mono {pol : Policy} {i : Nat} {m : Int} (_hi2 : i ≠ 2)
    (hle : minAt pol i ≤ m) (hmD : m ≤ DisabledV) (user : Option Str) (s : Str)
    (pd : Bool) (h : classTier (setMin pol i m) user s pd = none) :
    classTier pol user s pd = none := by
  unfold classTier at h ⊢
  have hp : ∀ u, isPersonal (setMin pol i m) s u = isPersonal pol s u :=
    fun u => isPersonal_setMin pol i m s u
  by_cases hki : tierIndex (classCount s) = i
  · have hi5 : i < 5 := hki ▸ tierIndex_lt (classCount s)
    rw [hki, minAt_setMin_self hi5] at h
    rw [hki]
    by_cases hd : m = DisabledV
    · rw [if_pos hd] at h
      exact absurd h (by simp)
    · rw [if_neg hd] at h
      by_cases hl : (s.length : Int) < m
      · rw [if_pos hl] at h
        exact absurd h (by simp)
      · rw [if_neg hl] at h
        have htd : ¬minAt pol i = DisabledV := by
          intro hdd
          rw [hdd] at hle
          omega
        rw [if_neg htd, if_neg (by omega : ¬(s.length : Int) < minAt pol i)]
        cases user with
        | none => exact h
        | some u =>
            simp only [hp] at h
            exact h
  · rw [minAt_setMin_ne hki (tierIndex_lt (classCount s))] at h
    by_cases hd : minAt pol (tierIndex (classCount s)) = DisabledV
    · rw [if_pos hd] at h
      exact absurd h (by simp)
    · rw [if_neg hd] at h ⊢
      by_cases hl : (s.length : Int) < minAt pol (tierIndex (classCount s))
      · rw [if_pos hl] at h
        exact absurd h (by simp)
      · rw [if_neg hl] at h ⊢
        cases user with
        | none => exact h
        | some u =>
            simp only [hp] at h
            exact h

theorem evalCore_mono {pol : Policy} {i : Nat} {m : Int} (hi2 : i ≠ 2)
    (hle : minAt pol i ≤ m) (hmD : m ≤ DisabledV) (dict : Str → Bool)
    (user : Option Str) (s : Str) (pd : Bool)
    (h : evalCore (setMin pol i m) dict user s pd = none) :
    evalCore pol dict user s pd = none := by
  unfold evalCore at h ⊢
  rw [setMin_passphraseWords, setMin_min2 hi2] at h
  by_cases hq : pol.passphraseWords > 0 ∧ ((wordsOf s).length : Int) ≥ pol.passphraseWords
  · rw [if_pos hq] at h ⊢
    by_cases hd : pol.min2 = DisabledV
    · rw [if_pos hd] at h
      exact absurd h (by simp)
    · rw [if_neg hd] at h ⊢
      by_cases hl : (s.length : Int) ≥ pol.min2
      · rw [if_pos hl] at h ⊢
        exact h
      · rw [if_neg hl] at h ⊢
        exact classTier_mono hi2 hle hmD user s pd h
  · rw [if_neg hq] at h ⊢
    exact classTier_mono hi2 hle hmD user s pd h

theorem bestOther_setMin (pol : Policy) (i : Nat) (m : Int) (np : Str)
    (old user : Option Str) :
    bestOther (setMin pol i m) np old user = bestOther pol np old user := by
  unfold bestOther
  rw [setMin_matchLength]

theorem check_mono {pol : Policy} {i : Nat} {m : Int} (hi2 : i ≠ 2)
    (hle : minAt pol i ≤ m) (hmD : m ≤ DisabledV) (dict : Str → Bool)
    (new old user : Option Str)
    (h : check (setMin pol i m) dict new old user = none) :
    check pol dict new old user = none := by
  cases new with
  | none => simp [check] at h
  | some np =>
      simp only [check] at h ⊢
      by_cases he : np.isEmpty
      · rw [if_pos he] at h
        exact absurd h (by simp)
      · rw [if_neg he] at h ⊢
        by_cases hs : sameAsOld old np
        · rw [if_pos hs] at h
          exact absurd h (by simp)
        · rw [if_neg hs] at h ⊢
          rw [setMin_max] at h
          by_cases hm : (np.length : Int) > pol.max
          · rw [if_pos hm] at h
            exact absurd h (by simp)
          · rw [if_neg hm] at h ⊢
            rw [bestOther_setMin] at h
            cases hbo : bestOther pol np old user with
            | none =>
                simp only [hbo] at h ⊢
                exact evalCore_mono hi2 hle hmD dict user np false h
            | some d =>
                simp only [hbo] at h ⊢
                cases he2 : evalCore (setMin pol i m) dict user d true with
                | none =>
                    simp only [he2] at h
                    have hd2 : evalCore pol dict user d true = none :=
                      evalCore_mono hi2 hle hmD dict user d true he2
                    simp only [hd2]
                    exact evalCore_mono hi2 hle hmD dict user np false h
                | some w =>
                    simp only [he2] at h
                    rw [setMin_denySimilar] at h
                    by_cases hds : pol.denySimilar
                    · rw [if_pos hds] at h
                      exact absurd h (by simp)
                    · rw [if_neg hds] at h
                      have hnp : evalCore pol dict user np false = none :=
                        evalCore_mono hi2 hle hmD dict user np false h
                      cases hg : evalCore pol dict user d true with
                      | none =>
                          simp only [hg]
                          exact hnp
                      | some w2 =>
                          simp only [hg, if_neg hds]
                          exact hnp

/-! ### Structure of accepted and `Empty` outcomes -/

theorem phraseScan_ne_empty (dict : Str → Bool) (ws : List Str) :
    phraseScan dict ws ≠ some .empty := by
  induction ws with
  | nil => simp [phraseScan]
  | cons w rest ih =>
      unfold phraseScan
      split_ifs <;> simp_all

theorem classTier_ne_empty (pol : Policy) (user : Option Str) (s : Str) (pd : Bool) :
    classTier pol user s pd ≠ some .empty := by
  unfold classTier
  cases user <;> split_ifs <;> simp

theorem evalCore_ne_empty (pol : Policy) (dict : Str → Bool) (user : Option Str)
    (s : Str) (pd : Bool) : evalCore pol dict user s pd ≠ some .empty := by
  unfold evalCore
  split_ifs
  · simp
  · exact phraseScan_ne_empty dict (wordsOf s)
  · exact classTier_ne_empty pol user s pd
  · exact classTier_ne_empty pol user s pd

theorem evalCore_of_check_accept {pol : Policy} {dict : Str → Bool} {np : Str}
    {old user : Option Str} (h : check pol dict (some np) old user = none) :
    evalCore pol dict user np false = none := by
  simp only [check] at h
  by_cases he : np.isEmpty
  · rw [if_pos he] at h
    exact absurd h (by simp)
  · rw [if_neg he] at h
    by_cases hs : sameAsOld old np
    · rw [if_pos hs] at h
      exact absurd h (by simp)
    · rw [if_neg hs] at h
      by_cases hm : (np.length : Int) > pol.max
      · rw [if_pos hm] at h
        exact absurd h (by simp)
      · rw [if_neg hm] at h
        cases hbo : bestOther pol np old user with
        | none =>
            simp only [hbo] at h
            exact h
        | some d =>
            simp only [hbo] at h
            cases he2 : evalCore pol dict user d true with
            | none =>
                simp only [he2] at h
                exact h
            | some w =>
                simp only [he2] at h
                by_cases hds : pol.denySimilar
                · rw [if_pos hds] at h
                  exact absurd h (by simp)
                · rw [if_neg hds] at h
                  exact h

/-! ### Facts about the passphrase qualification and single-class passwords -/

/-- A password qualifies for the passphrase path by word count (§4.4
step 5). -/
def phraseQual (pol : Policy) (s : Str) : Prop :=
  pol.passphraseWords > 0 ∧ ((wordsOf s).length : Int) ≥ pol.passphraseWords

instance (pol : Policy) (s : Str) : Decidable (phraseQual pol s) := by
  unfold phraseQual
  infer_instance

theorem classCount_ne_nil {s : Str} (h : classCount s = 1) : s ≠ [] := by
  intro hs
  subst hs
  exact absurd h (by decide)

theorem bestOther_none_none (pol : Policy) (np : Str) :
    bestOther pol np none none = none := by
  unfold bestOther
  split_ifs <;> rfl

theorem evalCore_min0_disabled (pol : Policy) (dict : Str → Bool) (user : Option Str)
    (np : Str) (pd : Bool) (h1 : classCount np = 1) (hq : ¬phraseQual pol np) :
    evalCore { pol with min0 := DisabledV } dict user np pd = some .simpleshort := by
  unfold evalCore classTier
  rw [if_neg (by simpa [phraseQual] using hq)]
  rw [h1]
  norm_num [tierIndex, minAt]

theorem evalCore_min0_val (pol : Policy) (dict : Str → Bool) (s : Str) (L : Int)
    (h1 : classCount s = 1) (hq : ¬phraseQual pol s) (hLD : L ≠ DisabledV) :
    evalCore { pol with min0 := L } dict none s false =
      if (s.length : Int) < L then some .short else none := by
  unfold evalCore classTier
  rw [if_neg (by simpa [phraseQual] using hq), h1]
  rw [show tierIndex 1 = 0 from rfl]
  rw [show minAt { pol with min0 := L } 0 = L from rfl]
  rw [if_neg hLD]
  split_ifs <;> simp_all

theorem check_min0_disabled_rejects (pol : Policy) (dict : Str → Bool)
    (np : Str) (old user : Option Str) (h1 : classCount np = 1)
    (hq : ¬phraseQual pol np) :
    check { pol with min0 := DisabledV } dict (some np) old user ≠ none := by
  intro hacc
  have h := evalCore_of_check_accept hacc
  rw [evalCore_min0_disabled pol dict user np false h1 hq] at h
  exact absurd h (by simp)

theorem check_min0_len_accepts (pol : Policy) (dict : Str → Bool) (np : Str)
    (h1 : classCount np = 1) (hq : ¬phraseQual pol np)
    (hmax : (np.length : Int) ≤ pol.max) (hD : (np.length : Int) < DisabledV) :
    check { pol with min0 := (np.length : Int) } dict (some np) none none = none := by
  have hne : np ≠ [] := classCount_ne_nil h1
  simp only [check]
  rw [if_neg (by simpa [List.isEmpty_iff] using hne)]
  rw [if_neg (by simp [sameAsOld])]
  rw [if_neg (by omega)]
  simp only [bestOther_none_none]
  rw [evalCore_min0_val pol dict np (np.length : Int) h1 hq (by omega)]
  rw [if_neg (by omega)]

theorem check_min0_len_rejects (pol : Policy) (dict : Str → Bool) (np np2 : Str)
    (h1 : classCount np2 = 1) (hq : ¬phraseQual pol np2)
    (hlen : np2.length < np.length) (hD : (np.length : Int) < DisabledV) :
    check { pol with min0 := (np.length : Int) } dict (some np2) none none ≠ none := by
  intro hacc
  have h := evalCore_of_check_accept hacc
  rw [evalCore_min0_val pol dict np2 (np.length : Int) h1 hq (by omega)] at h
  rw [if_pos (by omega)] at h
  exact absurd h (by simp)

/-! ### The `Same` and `Empty` outcomes -/

theorem check_same_of_foldcase (pol : Policy) (dict : Str → Bool) (np o : Str)
    (user : Option Str) (hne : np ≠ []) (heq : foldcase o = foldcase np) :
    check pol dict (some np) (some o) user = some .same := by
  simp only [check]
  rw [if_neg (by simpa [List.isEmpty_iff] using hne)]
  rw [if_pos (by simp [sameAsOld, heq])]

theorem check_empty_iff (pol : Policy) (dict : Str → Bool)
    (new old user : Option Str) :
    check pol dict new old user = some .empty ↔ new = none ∨ new = some [] := by
  constructor
  · intro h
    cases new with
    | none => exact Or.inl rfl
    | some np =>
        right
        by_cases he : np.isEmpty
        · rw [List.isEmpty_iff] at he
          rw [he]
        · exfalso
          simp only [check] at h
          rw [if_neg he] at h
          by_cases hs : sameAsOld old np
          · rw [if_pos hs] at h
            simp at h
          · rw [if_neg hs] at h
            by_cases hm : (np.length : Int) > pol.max
            · rw [if_pos hm] at h
              simp at h
            · rw [if_neg hm] at h
              cases hbo : bestOther pol np old user with
              | none =>
                  simp only [hbo] at h
                  exact evalCore_ne_empty pol dict user np false h
              | some d =>
                  simp only [hbo] at h
                  cases he2 : evalCore pol dict user d true with
                  | none =>
                      simp only [he2] at h
                      exact evalCore_ne_empty pol dict user np false h
                  | some w =>
                      simp only [he2] at h
                      by_cases hds : pol.denySimilar
                      · rw [if_pos hds] at h
                        simp at h
                      · rw [if_neg hds] at h
                        exact evalCore_ne_empty pol dict user np false h
  · rintro (rfl | rfl)
    · rfl
    · rfl

/-! ### Single-item configurations -/

theorem normalize_of_item {s : Str} (h : s.all itemCh = true) : normalize s = s := by
  unfold normalize
  rw [replCRLF_of_no_cr (not_mem_of_all h (by decide)),
    replNL_of_no_nl (not_mem_of_all h (by decide))]

theorem parse_single_max (v : Int) (h : inI64 v) :
    parsePolicy (litMax ++ '=' :: renderInt v) = some { DefaultPolicy with max := v } := by
  have e : litMax ++ '=' :: renderInt v = fmtMax { DefaultPolicy with max := v } := rfl
  unfold parsePolicy parsePolicyS
  rw [e, normalize_of_item (fmtMax_all_item _),
    splitCh_of_no_sep _ _ (not_mem_of_all (fmtMax_all_item _) (by decide))]
  simp only [goItems, goItem,
    itemFn_fmtMax { DefaultPolicy with max := v } (by exact h), Option.map_some']

/-! ### Concrete values used by counterexamples and witnesses -/

/-- Dictionary lookup that contains no words. -/
def dictEmpty : Str → Bool := fun _ => false

/-- The word `horse`. -/
def wordHorse : Str := "horse".toList

/-- Dictionary lookup that contains exactly the word `horse`. -/
def dictHorse : Str → Bool := fun w => w == wordHorse

/-- A three-word phrase whose first word is a dictionary word. -/
def cePw1 : Str := "horse aa bb".toList

/-- A policy with class tiers of 1, passphrase tier 11, max 100, three
passphrase words and similarity checking off. -/
def cePol1 : Policy :=
  { min0 := 1, min1 := 1, min2 := 11, min3 := 1, min4 := 1, max := 100,
    passphraseWords := 3, matchLength := 0, denySimilar := false }

/-- A three-word phrase of length 11 whose characters are all other-ASCII
(one character class) and whose words are neither dictionary words nor
sequences. -/
def cePw4 : Str := "!#% &(* +-/".toList

/-- The single-class password of the repository's `TestDisabled`. -/
def pwTest : Str := "pwrjysrgylwwajk".toList

/-- A strict prefix of `pwTest` (10 characters, one class). -/
def pwShort : Str := "pwrjysrgyl".toList

/-- A password with upper case, lower case, and a digit. -/
def pwMixA : Str := "Secret1".toList

/-- The same password with the letter cases flipped. -/
def pwMixB : Str := "sECRET1".toList

/-! ## Claims -/

/-- C1, counterexample: raising the `min[2]` (passphrase) tier from 11 to 12
turns a rejected password into an accepted one.  Under `cePol1` the phrase
`horse aa bb` (length 11, three words, first word in the dictionary) enters
the passphrase path and is rejected as a dictionary word; with `min[2]`
raised to 12 the phrase falls through to the class-tier path (two classes,
tier `min[1] = 1`) and is accepted.  This refutes the claim that raising
any `min` tier never turns a rejected password into an accepted one. -/
theorem claim_c1_counterexample :
    minAt cePol1 2 ≤ 12 ∧ (12 : Int) ≤ DisabledV ∧
    check cePol1 dictHorse (some cePw1) none none ≠ none ∧
    check (setMin cePol1 2 12) dictHorse (some cePw1) none none = none := by
  decide

/-- C1 (corrected): monotonicity holds for every `min` tier other than
`min[2]`.  Raising `min[i]` for `i ∈ {0, 1, 3, 4}` (numerically, with
`Disabled = INT_MAX` the largest value) while holding every other field
fixed never turns a rejected call of `Check` into an accepted one; stated
as the equivalent acceptance transfer from the stricter policy to the
original. -/
theorem claim_c1_mono_amended :
    ∀ (pol : Policy) (dict : Str → Bool) (new old user : Option Str)
      (i : Nat) (m : Int),
      i < 5 → i ≠ 2 → minAt pol i ≤ m → m ≤ DisabledV →
      check (setMin pol i m) dict new old user = none →
      check pol dict new old user = none :=
  fun pol dict new old user _i m _ hi2 hle hmD h =>
    check_mono hi2 hle hmD dict new old user h

/-- C1, witness: raising `min[0]` from 1 to 5 on a policy that accepts the
six-character single-class password `zzzzzz` under the stricter policy
also accepts it under the original. -/
theorem claim_c1_mono_witness :
    check (setMin cePol1 0 5) dictEmpty (some ("zzzzzz".toList)) none none = none ∧
    check cePol1 dictEmpty (some ("zzzzzz".toList)) none none = none := by
  refine ⟨by decide, ?_⟩
  exact claim_c1_mono_amended cePol1 dictEmpty (some ("zzzzzz".toList)) none none 0 5
    (by decide) (by decide) (by decide) (by decide) (by decide)

/-- C2 (confirmed): for every policy and every supplied old password that
is case-insensitively equal to the (non-empty) new password, `Check`
returns the `Same` reason, regardless of `denySimilar`, of the length
relative to `max`, and of everything else; only the `Empty` check
precedes it. -/
theorem claim_c2_same :
    ∀ (pol : Policy) (dict : Str → Bool) (np o : Str) (user : Option Str),
      np ≠ [] → foldcase o = foldcase np →
      check pol dict (some np) (some o) user = some .same :=
  fun pol dict np o user hne heq => check_same_of_foldcase pol dict np o user hne heq

/-- C2, witness: `Secret1` against old password `sECRET1` yields `Same`
under the default policy. -/
theorem claim_c2_same_witness :
    check DefaultPolicy dictEmpty (some pwMixA) (some pwMixB) none = some .same :=
  claim_c2_same DefaultPolicy dictEmpty pwMixA pwMixB none (by decide) (by decide)

/-- C3 (confirmed): `Check` returns the `Empty` reason exactly when the
new password is absent (`none`) or empty, for every policy, old password
and username; for any other new password `Empty` is never returned. -/
theorem claim_c3_empty_iff :
    ∀ (pol : Policy) (dict : Str → Bool) (new old user : Option Str),
      check pol dict new old user = some .empty ↔ new = none ∨ new = some [] :=
  fun pol dict new old user => check_empty_iff pol dict new old user

/-- C4, counterexample: with `min[0] = Disabled` under the otherwise
default policy, the single-character-class password `cePw4` (three words
of other-ASCII punctuation, length 11) is accepted via the passphrase
path, refuting the claim that every single-class password is rejected. -/
theorem claim_c4_counterexample :
    classCount cePw4 = 1 ∧
    check { DefaultPolicy with min0 := DisabledV } dictEmpty (some cePw4) none none = none := by
  decide

/-- C4 (corrected): restricted to passwords that do not qualify for the
passphrase path (fewer words than `passphraseWords`, e.g. any space-free
password), the claim holds: with `min[0] = Disabled` every single-class
password is rejected (for every old password and username); and with
`min[0]` set to the password's own length (no old password or username,
length within `max` and below `Disabled`), that password is accepted and
every strictly shorter single-class non-passphrase password is
rejected. -/
theorem claim_c4_amended :
    (∀ (pol : Policy) (dict : Str → Bool) (np : Str) (old user : Option Str),
        classCount np = 1 → ¬phraseQual pol np →
        check { pol with min0 := DisabledV } dict (some np) old user ≠ none) ∧
    (∀ (pol : Policy) (dict : Str → Bool) (np : Str),
        classCount np = 1 → ¬phraseQual pol np →
        (np.length : Int) ≤ pol.max → (np.length : Int) < DisabledV →
        check { pol with min0 := (np.length : Int) } dict (some np) none none = none) ∧
    (∀ (pol : Policy) (dict : Str → Bool) (np np2 : Str),
        classCount np2 = 1 → ¬phraseQual pol np2 → np2.length < np.length →
        (np.length : Int) < DisabledV →
        check { pol with min0 := (np.length : Int) } dict (some np2) none none ≠ none) :=
  ⟨fun pol dict np old user h1 hq =>
      check_min0_disabled_rejects pol dict np old user h1 hq,
   fun pol dict np h1 hq hmax hD =>
      check_min0_len_accepts pol dict np h1 hq hmax hD,
   fun pol dict np np2 h1 hq hlen hD =>
      check_min0_len_rejects pol dict np np2 h1 hq hlen hD⟩

/-- C4, witness: the `TestDisabled` password `pwrjysrgylwwajk` is rejected
with `min[0] = Disabled`, accepted with `min[0]` equal to its length 15,
and its 10-character prefix is rejected under that same policy. -/
theorem claim_c4_witness :
    check { DefaultPolicy with min0 := DisabledV } dictEmpty (some pwTest) none none ≠ none ∧
    check { DefaultPolicy with min0 := (pwTest.length : Int) } dictEmpty (some pwTest) none none = none ∧
    check { DefaultPolicy with min0 := (pwTest.length : Int) } dictEmpty (some pwShort) none none ≠ none :=
  ⟨claim_c4_amended.1 DefaultPolicy dictEmpty pwTest none none (by decide) (by decide),
   claim_c4_amended.2.1 DefaultPolicy dictEmpty pwTest (by decide) (by decide)
     (by decide) (by decide),
   claim_c4_amended.2.2 DefaultPolicy dictEmpty pwTest pwShort (by decide) (by decide)
     (by decide) (by decide)⟩

/-- C5, counterexample: `ParsePolicy` accepts a configuration whose values
violate the documented `Policy` invariants — `min` entries increasing from
index 1 to 4 and a `max` of 0 smaller than every enabled `min` tier — and
returns it as a `Policy` with no error, refuting the claim that such
violations are rejected at parse time. -/
theorem claim_c5_counterexample :
    parsePolicy ("min=1,2,3,4,5 max=0".toList) =
      some { min0 := 1, min1 := 2, min2 := 3, min3 := 4, min4 := 5, max := 0,
             passphraseWords := 3, matchLength := 4, denySimilar := true } := by
  decide

/-- C5 (corrected): `ParsePolicy` validates syntax only and performs no
value-range validation: for every representable negative value `v`, the
configuration `max=v` — which violates both the non-negativity invariant
and `max ≥` every enabled `min` tier — parses successfully to a policy
with that `max`. -/
theorem claim_c5_amended :
    ∀ v : Int, inI64 v → v < 0 →
      parsePolicy (litMax ++ '=' :: renderInt v) = some { DefaultPolicy with max := v } :=
  fun v hv _ => parse_single_max v hv

/-- C5, witness: `max=-5` parses successfully. -/
theorem claim_c5_witness :
    parsePolicy (litMax ++ '=' :: renderInt (-5)) = some { DefaultPolicy with max := -5 } :=
  claim_c5_amended (-5) (by decide) (by decide)

/-- C6, counterexample: a leading sign does not make `ParsePolicy` fail:
`max=+5` parses successfully to `Max = 5` (`strconv.Atoi` accepts a
leading `+` or `-`), refuting the claim that a leading sign is
rejected. -/
theorem claim_c6_counterexample :
    parsePolicy ("max=+5".toList) = some { DefaultPolicy with max := 5 } := by
  decide

/-- C6 (corrected): `ParsePolicy` fails on empty or whitespace-only input
(any string of spaces, tabs, newlines and carriage returns), on a `min`
item with other than exactly 5 comma-separated values, and on a value
with an alternate-base prefix such as `0x10`; but a leading sign is
accepted, because `strconv.Atoi` parses signed base-10 integers. -/
theorem claim_c6_amended :
    (∀ s : Str, s.all wsCl = true → parsePolicy s = none) ∧
    parsePolicy ("min=16,17,18,19".toList) = none ∧
    parsePolicy ("max=0x10".toList) = none ∧
    parsePolicy ("max=-5".toList) = some { DefaultPolicy with max := -5 } :=
  ⟨fun s hs => parse_err_of_all_ws hs, by decide, by decide, by decide⟩

/-- C6, witness: the single-space configuration fails, together with the
closed conjuncts of the amended claim. -/
theorem claim_c6_witness :
    parsePolicy (" ".toList) = none ∧
    parsePolicy ("min=16,17,18,19".toList) = none ∧
    parsePolicy ("max=0x10".toList) = none ∧
    parsePolicy ("max=-5".toList) = some { DefaultPolicy with max := -5 } :=
  ⟨claim_c6_amended.1 (" ".toList) (by decide), claim_c6_amended.2.1,
   claim_c6_amended.2.2.1, claim_c6_amended.2.2.2⟩

/-- C7 (confirmed): `ParsePolicy` is a left inverse of the canonical
policy formatter: for every policy whose integer fields are representable
Go `int`s, parsing the canonical rendering
`min=N0,N1,N2,N3,N4 max=N passphrase=N match=N similar=permit|deny`
(with `disabled` for `Disabled` entries) reproduces the policy exactly,
with no error. -/
theorem claim_c7_round_trip :
    ∀ p : Policy, PolicyInRange p → parsePolicy (formatPolicy p) = some p :=
  fun p hr => parse_format_eq p hr

/-- C7, witness: the default policy round-trips through its canonical
rendering. -/
theorem claim_c7_witness :
    parsePolicy (formatPolicy DefaultPolicy) = some DefaultPolicy :=
  claim_c7_round_trip DefaultPolicy (by decide)

/-- C8 (confirmed): duplicate items are not an error and the last
occurrence wins, in full generality.  For every nonempty space-joined
configuration of well-formed items (each reading as the semantic content
`itemVal?` gives it), `ParsePolicy` succeeds and returns the fold of the
items' field writes over the default policy; and every field of that
result — all five `Min` entries, `Max`, `PassphraseWords`, `MatchLength`
and `DenySimilar` — equals the value written by the last item of its name
family, or the default when no item writes it.  Duplicates of any name,
in any number and in any position among other items, are therefore no
error and resolve to the last occurrence. -/
theorem claim_c8_dup_last_wins :
    ∀ (its : List Str) (ivs : List ItemVal), its ≠ [] →
      (∀ it ∈ its, it.all itemCh = true) →
      its.map itemVal? = ivs.map some →
      parsePolicy (joinSp its) = some (ivs.foldl applyVal DefaultPolicy) ∧
      (ivs.foldl applyVal DefaultPolicy).min0 = lastBy selMin0 DefaultPolicy.min0 ivs ∧
      (ivs.foldl applyVal DefaultPolicy).min1 = lastBy selMin1 DefaultPolicy.min1 ivs ∧
      (ivs.foldl applyVal DefaultPolicy).min2 = lastBy selMin2 DefaultPolicy.min2 ivs ∧
      (ivs.foldl applyVal DefaultPolicy).min3 = lastBy selMin3 DefaultPolicy.min3 ivs ∧
      (ivs.foldl applyVal DefaultPolicy).min4 = lastBy selMin4 DefaultPolicy.min4 ivs ∧
      (ivs.foldl applyVal DefaultPolicy).max = lastBy selMax DefaultPolicy.max ivs ∧
      (ivs.foldl applyVal DefaultPolicy).passphraseWords =
        lastBy selPassphrase DefaultPolicy.passphraseWords ivs ∧
      (ivs.foldl applyVal DefaultPolicy).matchLength =
        lastBy selMatch DefaultPolicy.matchLength ivs ∧
      (ivs.foldl applyVal DefaultPolicy).denySimilar =
        lastBy selSimilar DefaultPolicy.denySimilar ivs :=
  fun its ivs hne hclean hwf =>
    ⟨parse_joinSp its ivs hne hclean hwf,
     foldl_applyVal_field (·.min0) selMin0 (fun p iv => by cases iv <;> rfl) ivs DefaultPolicy,
     foldl_applyVal_field (·.min1) selMin1 (fun p iv => by cases iv <;> rfl) ivs DefaultPolicy,
     foldl_applyVal_field (·.min2) selMin2 (fun p iv => by cases iv <;> rfl) ivs DefaultPolicy,
     foldl_applyVal_field (·.min3) selMin3 (fun p iv => by cases iv <;> rfl) ivs DefaultPolicy,
     foldl_applyVal_field (·.min4) selMin4 (fun p iv => by cases iv <;> rfl) ivs DefaultPolicy,
     foldl_applyVal_field (·.max) selMax (fun p iv => by cases iv <;> rfl) ivs DefaultPolicy,
     foldl_applyVal_field (·.passphraseWords) selPassphrase
       (fun p iv => by cases iv <;> rfl) ivs DefaultPolicy,
     foldl_applyVal_field (·.matchLength) selMatch
       (fun p iv => by cases iv <;> rfl) ivs DefaultPolicy,
     foldl_applyVal_field (·.denySimilar) selSimilar
       (fun p iv => by cases iv <;> rfl) ivs DefaultPolicy⟩

/-- C8, witness: `similar=deny max=10 max=20 similar=permit` — duplicates
of two different names, interleaved with each other — parses successfully
to the fold of its writes, whose `max` is the last-written 20 and whose
`denySimilar` is the last-written `false`. -/
theorem claim_c8_dup_witness :
    parsePolicy (joinSp ["similar=deny".toList, "max=10".toList, "max=20".toList,
        "similar=permit".toList]) =
      some ([ItemVal.simv true, ItemVal.maxv 10, ItemVal.maxv 20,
        ItemVal.simv false].foldl applyVal DefaultPolicy) ∧
    ([ItemVal.simv true, ItemVal.maxv 10, ItemVal.maxv 20,
        ItemVal.simv false].foldl applyVal DefaultPolicy).min0 =
      lastBy selMin0 DefaultPolicy.min0 [ItemVal.simv true, ItemVal.maxv 10,
        ItemVal.maxv 20, ItemVal.simv false] ∧
    ([ItemVal.simv true, ItemVal.maxv 10, ItemVal.maxv 20,
        ItemVal.simv false].foldl applyVal DefaultPolicy).min1 =
      lastBy selMin1 DefaultPolicy.min1 [ItemVal.simv true, ItemVal.maxv 10,
        ItemVal.maxv 20, ItemVal.simv false] ∧
    ([ItemVal.simv true, ItemVal.maxv 10, ItemVal.maxv 20,
        ItemVal.simv false].foldl applyVal DefaultPolicy).min2 =
      lastBy selMin2 DefaultPolicy.min2 [ItemVal.simv true, ItemVal.maxv 10,
        ItemVal.maxv 20, ItemVal.simv false] ∧
    ([ItemVal.simv true, ItemVal.maxv 10, ItemVal.maxv 20,
        ItemVal.simv false].foldl applyVal DefaultPolicy).min3 =
      lastBy selMin3 DefaultPolicy.min3 [ItemVal.simv true, ItemVal.maxv 10,
        ItemVal.maxv 20, ItemVal.simv false] ∧
    ([ItemVal.simv true, ItemVal.maxv 10, ItemVal.maxv 20,
        ItemVal.simv false].foldl applyVal DefaultPolicy).min4 =
      lastBy selMin4 DefaultPolicy.min4 [ItemVal.simv true, ItemVal.maxv 10,
        ItemVal.maxv 20, ItemVal.simv false] ∧
    ([ItemVal.simv true, ItemVal.maxv 10, ItemVal.maxv 20,
        ItemVal.simv false].foldl applyVal DefaultPolicy).max =
      lastBy selMax DefaultPolicy.max [ItemVal.simv true, ItemVal.maxv 10,
        ItemVal.maxv 20, ItemVal.simv false] ∧
    ([ItemVal.simv true, ItemVal.maxv 10, ItemVal.maxv 20,
        ItemVal.simv false].foldl applyVal DefaultPolicy).passphraseWords =
      lastBy selPassphrase DefaultPolicy.passphraseWords [ItemVal.simv true,
        ItemVal.maxv 10, ItemVal.maxv 20, ItemVal.simv false] ∧
    ([ItemVal.simv true, ItemVal.maxv 10, ItemVal.maxv 20,
        ItemVal.simv false].foldl applyVal DefaultPolicy).matchLength =
      lastBy selMatch DefaultPolicy.matchLength [ItemVal.simv true, ItemVal.maxv 10,
        ItemVal.maxv 20, ItemVal.simv false] ∧
    ([ItemVal.simv true, ItemVal.maxv 10, ItemVal.maxv 20,
        ItemVal.simv false].foldl applyVal DefaultPolicy).denySimilar =
      lastBy selSimilar DefaultPolicy.denySimilar [ItemVal.simv true, ItemVal.maxv 10,
        ItemVal.maxv 20, ItemVal.simv false] :=
  claim_c8_dup_last_wins
    ["similar=deny".toList, "max=10".toList, "max=20".toList, "similar=permit".toList]
    [ItemVal.simv true, ItemVal.maxv 10, ItemVal.maxv 20, ItemVal.simv false]
    (by decide) (by decide) (by decide)

/-- C9 (confirmed): any leading, trailing, or consecutive separator
(space or newline) in the configuration string produces an empty token and
makes `ParsePolicy` return an error, whatever the rest of the string
contains. -/
theorem claim_c9_sep_errors :
    ∀ (s t : Str) (c1 c2 : Char), (c1 = ' ' ∨ c1 = '\n') → (c2 = ' ' ∨ c2 = '\n') →
      parsePolicy (c1 :: s) = none ∧ parsePolicy (s ++ [c1]) = none ∧
      parsePolicy (s ++ c1 :: c2 :: t) = none := by
  intro s t c1 c2 h1 h2
  refine ⟨?_, ?_, ?_⟩
  · exact parse_err_of_norm_leading ⟨normalize s, normalize_cons_sep h1 s⟩
  · exact parse_err_of_norm_trailing (normalize_append_sep h1 s)
  · obtain ⟨u, hu⟩ := normalize_append_sep2 h1 h2 s t
    exact parse_err_of_norm_mid ⟨u, normalize t, hu⟩

/-- C9, witness: `max=40 ` with a trailing space and
`max=40  passphrase=3` with two consecutive spaces are both rejected,
as is a leading space. -/
theorem claim_c9_sep_witness :
    parsePolicy (' ' :: "max=40".toList) = none ∧
    parsePolicy ("max=40".toList ++ [' ']) = none ∧
    parsePolicy ("max=40".toList ++ ' ' :: ' ' :: "passphrase=3".toList) = none :=
  claim_c9_sep_errors ("max=40".toList) ("passphrase=3".toList) ' ' ' '
    (Or.inl rfl) (Or.inl rfl)

/-- C10 (confirmed): `ParsePolicy` copies the default policy into a fresh
policy and mutates only the copy: after any call — succeeding or failing —
the threaded default-policy global is unchanged. -/
theorem claim_c10_default_unchanged :
    ∀ (d : Policy) (cfg : Str), (parsePolicyS d cfg).1.dflt = d :=
  fun d cfg => goItems_dflt ⟨d, d⟩ (splitCh ' ' (normalize cfg))

end PWC
